import Mathlib

/-!
# paranoidhttp: the address-safety pipeline of `client.go`

A shallow embedding of `safeAddr`, `NewDialer`, `isBadHost`, `isBadIPv4` and the
blocklist built by `init`, together with the parts of Go's `net`, `net/netip`
and `regexp` packages that these functions call.

The library routines are translated from the source of a recent Go release, in which
`net.ParseIP`, `net.ParseCIDR` and `(net.IP).String` go through `net/netip`; loops
become structural recursions, with a counter where the Go loop runs on an index.

Conventions of the embedding
* a Go `string` is a list of characters (`GoString`); the library routines used
  here only test for ASCII bytes, which never occur inside a multi-byte UTF-8
  sequence, so nothing is lost for valid UTF-8 text;
* a Go `byte` is `Fin 256`; `net.IP` is a list of bytes and a `nil` slice
  returned by the library is `none`;
* a Go `(value, error)` pair is a pair whose second component is an
  `Option Error`, `none` standing for `nil`;
* a Go panic is the `Except.error` of the outer `Except`;
* calls that leave the process (`net.LookupIP`, `(*net.Dialer).Dial`) are
  answered by a `World` and recorded, in order, in a trace of `Event`s.
-/

namespace Paranoidhttp

/-! ## Data model -/

/-- A Go `string`. -/
abbrev GoString := List Char

/-- A Go `byte`. -/
abbrev Byte := Fin 256

/-- The Go type `net.IP`, a byte slice. -/
abbrev IP := List Byte

/-- The Go type `net.IPMask`. -/
abbrev IPMask := List Byte

/-- The Go type `net.IPNet`. -/
structure IPNet where
  IP : IP
  Mask : IPMask
deriving DecidableEq

/-- Go `net.IPv4len`. -/
def IPv4len : Nat := 4

/-- Go `net.IPv6len`. -/
def IPv6len : Nat := 16

/-- Go `net.v4InV6Prefix`. -/
def v4InV6Prefix : List Byte := [0, 0, 0, 0, 0, 0, 0, 0, 0, 0, 0xff, 0xff]

/-- Go `net.IPv4(a, b, c, d)`: the 16-byte form of an IPv4 address. -/
def IPv4 (a b c d : Byte) : IP := v4InV6Prefix ++ [a, b, c, d]

/-- Go `net.IPv4bcast`. -/
def IPv4bcast : IP := IPv4 255 255 255 255

/-- Go `net.IPv4zero`. -/
def IPv4zero : IP := IPv4 0 0 0 0

/-- Go `net.IPv6unspecified`. -/
def IPv6unspecified : IP := [0, 0, 0, 0, 0, 0, 0, 0, 0, 0, 0, 0, 0, 0, 0, 0]

/-- Go `net.IPv6loopback`. -/
def IPv6loopback : IP := [0, 0, 0, 0, 0, 0, 0, 0, 0, 0, 0, 0, 0, 0, 0, 1]

/-- The slice index expression `p[i]`; every call site below has `i` in range. -/
def idx (p : List Byte) (i : Nat) : Byte := p.getD i 0

/-! ## `net.IP` methods -/

/-- Go `net.isZeros`. -/
def isZeros (p : IP) : Bool := p.all (fun b => b == 0)

/-- Go `(net.IP).To4`: the 4-byte form of an IPv4 address, `none` for `nil`. -/
def To4 (ip : IP) : Option IP :=
  if ip.length = IPv4len then some ip
  else if ip.length = IPv6len ∧ isZeros (ip.take 10) = true ∧ idx ip 10 = 0xff ∧ idx ip 11 = 0xff then
    some (ip.drop 12)
  else none

/-- Go `(net.IP).Equal`. -/
def Equal (ip x : IP) : Bool :=
  if ip.length = x.length then ip == x
  else if ip.length = IPv4len ∧ x.length = IPv6len then
    x.take 12 == v4InV6Prefix && ip == x.drop 12
  else if ip.length = IPv6len ∧ x.length = IPv4len then
    ip.take 12 == v4InV6Prefix && ip.drop 12 == x
  else false

/-- Go `(net.IP).IsUnspecified`. -/
def IsUnspecified (ip : IP) : Bool := Equal ip IPv4zero || Equal ip IPv6unspecified

/-- Go `(net.IP).IsLoopback`. -/
def IsLoopback (ip : IP) : Bool :=
  match To4 ip with
  | some ip4 => idx ip4 0 == 127
  | none => Equal ip IPv6loopback

/-- Go `(net.IP).IsMulticast`. -/
def IsMulticast (ip : IP) : Bool :=
  match To4 ip with
  | some ip4 => idx ip4 0 &&& 0xf0 == 0xe0
  | none => ip.length == IPv6len && idx ip 0 == 0xff

/-- Go `(net.IP).IsLinkLocalUnicast`. -/
def IsLinkLocalUnicast (ip : IP) : Bool :=
  match To4 ip with
  | some ip4 => idx ip4 0 == 169 && idx ip4 1 == 254
  | none => ip.length == IPv6len && idx ip 0 == 0xfe && idx ip 1 &&& 0xc0 == 0x80

/-- Go `(net.IP).IsGlobalUnicast`. -/
def IsGlobalUnicast (ip : IP) : Bool :=
  (ip.length == IPv4len || ip.length == IPv6len) &&
    !Equal ip IPv4bcast &&
    !IsUnspecified ip &&
    !IsLoopback ip &&
    !IsMulticast ip &&
    !IsLinkLocalUnicast ip

/-- Go `net.networkNumberAndMask`; `none` is the `nil, nil` result. -/
def networkNumberAndMask (n : IPNet) : Option (IP × IPMask) :=
  let ip? : Option IP :=
    match To4 n.IP with
    | some ip4 => some ip4
    | none => if n.IP.length ≠ IPv6len then none else some n.IP
  match ip? with
  | none => none
  | some ip =>
    if n.Mask.length = IPv4len then
      if ip.length ≠ IPv4len then none else some (ip, n.Mask)
    else if n.Mask.length = IPv6len then
      if ip.length = IPv4len then some (ip, n.Mask.drop 12) else some (ip, n.Mask)
    else none

/-- The loop of `(*net.IPNet).Contains`: `nn[i]&m[i] == ip[i]&m[i]` at every index. -/
def maskedEq : IP → IPMask → IP → Bool
  | [], _, _ => true
  | n :: nn, m, ip =>
    (n &&& idx m 0 == idx ip 0 &&& idx m 0) && maskedEq nn (m.drop 1) (ip.drop 1)

/-- Go `(*net.IPNet).Contains`. -/
def Contains (n : IPNet) (ip : IP) : Bool :=
  let ip := match To4 ip with
    | some x => x
    | none => ip
  match networkNumberAndMask n with
  | none => ip.length == 0
  | some (nn, m) => if ip.length ≠ nn.length then false else maskedEq nn m ip

/-! ## Text routines of `net` and `net/netip` -/

/-- Go `bytealg.IndexByteString`; `none` is the result `-1`. -/
def IndexByteString : GoString → Char → Option Nat
  | [], _ => none
  | x :: s, c => if x = c then some 0 else (IndexByteString s c).map (fun i => i + 1)

/-- Go `bytealg.LastIndexByteString`; `none` is the result `-1`. -/
def LastIndexByteString : GoString → Char → Option Nat
  | [], _ => none
  | x :: s, c =>
    match LastIndexByteString s c with
    | some i => some (i + 1)
    | none => if x = c then some 0 else none

/-- The conversion `byte(n)`. -/
def toByte (n : Nat) : Byte := ⟨n % 256, Nat.mod_lt n (by decide)⟩

/-- Go `netip.digits`. -/
def digits : GoString := ['0', '1', '2', '3', '4', '5', '6', '7', '8', '9', 'a', 'b', 'c', 'd', 'e', 'f']

/-- The expression `digits[n]`. -/
def digit (n : Nat) : Char := digits.getD n '0'

/-- Go `netip.appendDecimal`. -/
def appendDecimal (b : GoString) (x : Byte) : GoString :=
  let b := if x.val ≥ 100 then b ++ [digit (x.val / 100)] else b
  let b := if x.val ≥ 10 then b ++ [digit (x.val / 10 % 10)] else b
  b ++ [digit (x.val % 10)]

/-- Go `netip.appendHex`, on a 16-bit value. -/
def appendHex (b : GoString) (x : Nat) : GoString :=
  let b := if x ≥ 0x1000 then b ++ [digit (x >>> 12)] else b
  let b := if x ≥ 0x100 then b ++ [digit (x >>> 8 &&& 0xf)] else b
  let b := if x ≥ 0x10 then b ++ [digit (x >>> 4 &&& 0xf)] else b
  b ++ [digit (x &&& 0xf)]

/-- Go `net.hexString`. -/
def hexString : List Byte → GoString
  | [] => []
  | tn :: b => digit (tn.val >>> 4) :: digit (tn.val &&& 0xf) :: hexString b

/-- Go `(netip.Addr).appendTo4`, on the four bytes of the address. -/
def appendTo4 (ret : GoString) (p : List Byte) : GoString :=
  let ret := appendDecimal ret (idx p 0)
  let ret := ret ++ ['.']
  let ret := appendDecimal ret (idx p 1)
  let ret := ret ++ ['.']
  let ret := appendDecimal ret (idx p 2)
  let ret := ret ++ ['.']
  appendDecimal ret (idx p 3)

/-- Go `(netip.Addr).v6u16`: the eight 16-bit groups of a 16-byte address. -/
def v6u16 (ip : List Byte) (i : Nat) : Nat := (idx ip (2 * i)).val <<< 8 ||| (idx ip (2 * i + 1)).val

/-- The inner loop `for j < 8 && ip.v6u16(j) == 0 { j++ }` of `appendTo6`, from `j`;
`k` bounds the remaining groups. -/
def zeroRunEnd (ip : List Byte) : Nat → Nat → Nat
  | 0, j => j
  | k + 1, j => if j < 8 ∧ v6u16 ip j = 0 then zeroRunEnd ip k (j + 1) else j

/-- The first loop of `appendTo6`: the first longest run of at least two zero groups;
`k` bounds the remaining iterations (`i = 8 - k`). -/
def findZeroRun (ip : List Byte) : Nat → Nat → Nat × Nat → Nat × Nat
  | 0, _, z => z
  | k + 1, i, (zeroStart, zeroEnd) =>
    let j := zeroRunEnd ip 8 i
    let l := j - i
    if l ≥ 2 ∧ l > zeroEnd - zeroStart then findZeroRun ip k (i + 1) (i, j)
    else findZeroRun ip k (i + 1) (zeroStart, zeroEnd)

/-- The second loop of `appendTo6`; `k` bounds the remaining iterations. -/
def appendTo6Loop (ip : List Byte) (zeroStart zeroEnd : Nat) : Nat → Nat → GoString → GoString
  | 0, _, ret => ret
  | k + 1, i, ret =>
    if i < 8 then
      if i = zeroStart then
        let ret := ret ++ [':', ':']
        let i := zeroEnd
        if i ≥ 8 then ret
        else appendTo6Loop ip zeroStart zeroEnd k (i + 1) (appendHex ret (v6u16 ip i))
      else
        let ret := if i > 0 then ret ++ [':'] else ret
        appendTo6Loop ip zeroStart zeroEnd k (i + 1) (appendHex ret (v6u16 ip i))
    else ret

/-- Go `(netip.Addr).appendTo6` for an address without zone. -/
def appendTo6 (ret : GoString) (ip : List Byte) : GoString :=
  let z := findZeroRun ip 8 0 (255, 255)
  appendTo6Loop ip z.1 z.2 8 0 ret

/-- Go `(net.IP).String`. -/
def IPString (ip : IP) : GoString :=
  if ip.length = 0 then ['<', 'n', 'i', 'l', '>']
  else if ip.length ≠ IPv4len ∧ ip.length ≠ IPv6len then '?' :: hexString ip
  else
    match To4 ip with
    | some p4 => appendTo4 [] p4
    | none => appendTo6 [] ip

/-- Go `net.JoinHostPort`. -/
def JoinHostPort (host port : GoString) : GoString :=
  if (IndexByteString host ':').isSome then ['['] ++ host ++ [']', ':'] ++ port
  else host ++ [':'] ++ port

/-- Go `net.dtoi` (`big = 0xFFFFFF`), as the loop over the rest of the string with
the running value `n` and index `i`; the result is `(n, i, ok)`. -/
def dtoiLoop : GoString → Nat → Nat → Nat × Nat × Bool
  | [], n, i => if i = 0 then (0, 0, false) else (n, i, true)
  | c :: s, n, i =>
    if '0' ≤ c ∧ c ≤ '9' then
      let n := n * 10 + (c.toNat - '0'.toNat)
      if n ≥ 0xFFFFFF then (0xFFFFFF, i, false) else dtoiLoop s n (i + 1)
    else if i = 0 then (0, 0, false) else (n, i, true)

/-- Go `net.dtoi`. -/
def dtoi (s : GoString) : Nat × Nat × Bool := dtoiLoop s 0 0

/-- The loop of Go `netip.parseIPv4Fields` over the rest `s[i:]` of the text, with the
loop variables `val`, `pos`, `digLen`, the fields stored so far, and the previous
character (`none` when `i = 0`). The result is the four fields, `none` on error. -/
def parseIPv4FieldsLoop : GoString → Option Char → Nat → Nat → Nat → List Byte → Option (List Byte)
  | [], _, val, pos, _, fields => if pos < 3 then none else some (fields ++ [toByte val])
  | c :: s, prev, val, pos, digLen, fields =>
    if '0' ≤ c ∧ c ≤ '9' then
      if digLen = 1 ∧ val = 0 then none
      else
        let val := val * 10 + c.toNat - '0'.toNat
        if val > 255 then none
        else parseIPv4FieldsLoop s (some c) val pos (digLen + 1) fields
    else if c = '.' then
      if prev = none ∨ s = [] ∨ prev = some '.' then none
      else if pos = 3 then none
      else parseIPv4FieldsLoop s (some c) 0 (pos + 1) 0 (fields ++ [toByte val])
    else none

/-- Go `netip.parseIPv4Fields` on the whole of `s`. -/
def parseIPv4Fields (s : GoString) : Option (List Byte) := parseIPv4FieldsLoop s none 0 0 0 []

/-- The hexadecimal-group loop of Go `netip.parseIPv6` over `s[off:]`: the result is
`(acc, off, s[off:])` at the first character that is not a hex digit, `none` on error. -/
def parseHexLoop : GoString → Nat → Nat → Option (Nat × Nat × GoString)
  | [], acc, off => some (acc, off, [])
  | c :: s, acc, off =>
    let acc? : Option Nat :=
      if '0' ≤ c ∧ c ≤ '9' then some ((acc <<< 4) + (c.toNat - '0'.toNat))
      else if 'a' ≤ c ∧ c ≤ 'f' then some ((acc <<< 4) + (c.toNat - 'a'.toNat + 10))
      else if 'A' ≤ c ∧ c ≤ 'F' then some ((acc <<< 4) + (c.toNat - 'A'.toNat + 10))
      else none
    match acc? with
    | none => some (acc, off, c :: s)
    | some acc =>
      if off > 3 then none
      else if acc > 0xFFFF then none
      else parseHexLoop s acc (off + 1)

/-- The main loop `for i < 16` of Go `netip.parseIPv6`. The bytes `ip[0:i]` written so
far are `ip`, so `i = ip.length`; `k` counts the iterations that remain before
`i` reaches 16. The result is the state `(s, ip, ellipsis)` on leaving the loop,
`none` on error. -/
def parseIPv6Loop : Nat → GoString → List Byte → Option Nat → Option (GoString × List Byte × Option Nat)
  | 0, s, ip, ellipsis => some (s, ip, ellipsis)
  | k + 1, s, ip, ellipsis =>
    let i := ip.length
    match parseHexLoop s 0 0 with
    | none => none
    | some (acc, off, rest) =>
      if off = 0 then none
      else if rest.head? = some '.' then
        if ellipsis = none ∧ i ≠ 12 then none
        else if i + 4 > 16 then none
        else
          match parseIPv4Fields s with
          | none => none
          | some fields => some ([], ip ++ fields, ellipsis)
      else
        let ip := ip ++ [toByte (acc >>> 8), toByte acc]
        let i := i + 2
        match rest with
        | [] => some ([], ip, ellipsis)
        | c :: s =>
          if c ≠ ':' then none
          else if s = [] then none
          else if s.head? = some ':' then
            if ellipsis.isSome then none
            else if s.drop 1 = [] then some ([], ip, some i)
            else parseIPv6Loop k (s.drop 1) ip (some i)
          else parseIPv6Loop k s ip ellipsis

/-- Go `netip.parseIPv6`; the result is the 16 bytes and the zone. -/
def parseIPv6 (input : GoString) : Option (List Byte × GoString) :=
  let split : Option (GoString × GoString) :=
    match IndexByteString input '%' with
    | some i => if input.drop (i + 1) = [] then none else some (input.take i, input.drop (i + 1))
    | none => some (input, [])
  match split with
  | none => none
  | some (s, zone) =>
    let lead : Bool := s.length ≥ 2 ∧ s.head? = some ':' ∧ (s.drop 1).head? = some ':'
    if lead = true ∧ s.drop 2 = [] then some (IPv6unspecified, zone)
    else
      match parseIPv6Loop 8 (if lead then s.drop 2 else s) [] (if lead then some 0 else none) with
      | none => none
      | some (s, ip, ellipsis) =>
        if s.length ≠ 0 then none
        else if ip.length < 16 then
          match ellipsis with
          | none => none
          | some e => some (ip.take e ++ List.replicate (16 - ip.length) 0 ++ ip.drop e, zone)
        else if ellipsis.isSome then none
        else some (ip, zone)

/-- Go `netip.parseIPv4`; the result is the four bytes of the address. -/
def parseIPv4 (s : GoString) : Option (List Byte) := parseIPv4Fields s

/-- The scan of Go `netip.ParseAddr` for the first of `.`, `:` and `%`. -/
def firstSep : GoString → Option Char
  | [] => none
  | c :: s => if c = '.' ∨ c = ':' ∨ c = '%' then some c else firstSep s

/-- Go `netip.ParseAddr`: the bytes of the address (4 for an IPv4 address, 16 for an
IPv6 address) and its zone, `none` on error. -/
def ParseAddr (s : GoString) : Option (List Byte × GoString) :=
  match firstSep s with
  | some '.' =>
    match parseIPv4 s with
    | some p => some (p, [])
    | none => none
  | some ':' => parseIPv6 s
  | _ => none

/-- Go `(netip.Addr).As16`. -/
def As16 (p : List Byte) : List Byte :=
  if p.length = 4 then IPv4 (idx p 0) (idx p 1) (idx p 2) (idx p 3) else p

/-- Go `(netip.Addr).BitLen`. -/
def BitLen (p : List Byte) : Nat := if p.length = 4 then 32 else 128

/-- Go `net.ParseIP`: `nil` (here `none`) unless `s` is the text of an IPv4 or IPv6
address without zone; the result always has 16 bytes. -/
def ParseIP (s : GoString) : Option IP :=
  match ParseAddr s with
  | some (ip, zone) => if zone ≠ [] then none else some (As16 ip)
  | none => none

/-- The loop of Go `net.CIDRMask` with `k` bytes left to fill and `n` one-bits left. -/
def CIDRMaskLoop : Nat → Nat → IPMask
  | 0, _ => []
  | k + 1, n =>
    if n ≥ 8 then 0xff :: CIDRMaskLoop k (n - 8)
    else toByte (255 - (0xff >>> n)) :: CIDRMaskLoop k 0

/-- Go `net.CIDRMask`; the empty mask is the `nil` result. -/
def CIDRMask (ones bits : Nat) : IPMask :=
  if bits ≠ 8 * IPv4len ∧ bits ≠ 8 * IPv6len then []
  else if ones > bits then []
  else CIDRMaskLoop (bits / 8) ones

/-- Go `(net.IP).Mask`; the empty address is the `nil` result. -/
def Mask (ip : IP) (mask : IPMask) : IP :=
  let mask := if mask.length = IPv6len ∧ ip.length = IPv4len ∧ (mask.take 12).all (fun b => b == 0xff) = true
    then mask.drop 12 else mask
  let ip := if mask.length = IPv4len ∧ ip.length = IPv6len ∧ ip.take 12 = v4InV6Prefix
    then ip.drop 12 else ip
  if ip.length ≠ mask.length then []
  else List.zipWith (fun a b => a &&& b) ip mask

/-- Go `net.ParseCIDR`, keeping the `*IPNet` result; `none` when an error is returned. -/
def ParseCIDR (s : GoString) : Option IPNet :=
  match IndexByteString s '/' with
  | none => none
  | some i =>
    let addr := s.take i
    let mask := s.drop (i + 1)
    match ParseAddr addr with
    | none => none
    | some (ipAddr, zone) =>
      if zone ≠ [] then none
      else
        match dtoi mask with
        | (n, i, ok) =>
          if ok = false ∨ i ≠ mask.length ∨ n > BitLen ipAddr then none
          else
            let m := CIDRMask n (BitLen ipAddr)
            some { IP := Mask (As16 ipAddr) m, Mask := m }

/-! ## Errors, the outside world -/

deriving instance DecidableEq for Except

/-- The Go `error` values that occur in this package. -/
inductive Error where
  /-- The value `&net.AddrError{Err: err, Addr: addr}` made by `net.SplitHostPort`. -/
  | addr (err addr : GoString)
  /-- The value `fmt.Errorf("bad ip is detected: %v", ip)`. -/
  | badIP (ip : IP)
  /-- The value `fmt.Errorf("bad host is detected: %v", host)`. -/
  | badHost (host : GoString)
  /-- The value `errors.New("does not support any networks except tcp4")`. -/
  | unsupportedNetwork
  /-- An error made outside this package: by the resolver or by the socket layer. -/
  | external (msg : GoString)
deriving DecidableEq

/-- A call that leaves the process. -/
inductive Event where
  /-- A call `net.LookupIP(host)`. -/
  | LookupIP (host : GoString)
  /-- A call `dialer.Dial(network, address)`. -/
  | Dial (network address : GoString)
deriving DecidableEq

/-- The calls made so far, oldest first. -/
abbrev Trace := List Event

/-- An open connection (Go `net.Conn`), known by a handle. -/
structure Conn where
  handle : Nat
deriving DecidableEq

/-- The resolver of the platform: the answer `(ips, err)` of `net.LookupIP(host)`,
which may depend on every call made before. The answers are not constrained, so a
statement about every `World` covers more answers than `net.LookupIP` can give; what
`net.LookupIP` itself guarantees is stated apart (`LookupIPRejectsEmptyHost`). -/
structure World where
  LookupIP : Trace → GoString → List IP × Option Error

/-- Go `net.LookupIP` on the empty name: `Resolver.lookupIPAddr` starts with
`if host == "" { return nil, newDNSError(errNoSuchHost, host, "") }`, before any resolver
is consulted. A world has this property when every lookup of the empty name answers
`(nil, err)` with an error. -/
def LookupIPRejectsEmptyHost (w : World) : Prop :=
  ∀ tr : Trace, ∃ e, w.LookupIP tr [] = ([], some e)

/-- The Go type `*net.Dialer`: the answer `(conn, err)` of `dialer.Dial(network, address)`,
which may depend on every call made before. -/
structure Dialer where
  Dial : Trace → GoString → GoString → Option Conn × Option Error

/-! ## `net.SplitHostPort` -/

/-- Go `net.SplitHostPort`; the result is `(host, port, err)`. -/
def SplitHostPort (hostport : GoString) : GoString × GoString × Option Error :=
  let missingPort : GoString := "missing port in address".toList
  let tooManyColons : GoString := "too many colons in address".toList
  let addrErr (addr why : GoString) : GoString × GoString × Option Error := ([], [], some (Error.addr why addr))
  match LastIndexByteString hostport ':' with
  | none => addrErr hostport missingPort
  | some i =>
    let split : (GoString × Nat × Nat) ⊕ (GoString × GoString × Option Error) :=
      if hostport.head? = some '[' then
        match IndexByteString hostport ']' with
        | none => .inr (addrErr hostport "missing ']' in address".toList)
        | some e =>
          if e + 1 = hostport.length then .inr (addrErr hostport missingPort)
          else if e + 1 = i then .inl ((hostport.take e).drop 1, 1, e + 1)
          else if (hostport.drop (e + 1)).head? = some ':' then .inr (addrErr hostport tooManyColons)
          else .inr (addrErr hostport missingPort)
      else
        let host := hostport.take i
        if (IndexByteString host ':').isSome then .inr (addrErr hostport tooManyColons)
        else .inl (host, 0, 0)
    match split with
    | .inr e => e
    | .inl (host, j, k) =>
      if (IndexByteString (hostport.drop j) '[').isSome then
        addrErr hostport "unexpected '[' in address".toList
      else if (IndexByteString (hostport.drop k) ']').isSome then
        addrErr hostport "unexpected ']' in address".toList
      else (host, hostport.drop (i + 1), none)

/-! ## The package `paranoidhttp` (`client.go`) -/

/-- The package-level variables `netPrivateClassA` ... `net6To4Relay`. -/
structure Blocks where
  netPrivateClassA : IPNet
  netPrivateClassB : IPNet
  netPrivateClassC : IPNet
  netTestNet : IPNet
  net6To4Relay : IPNet
deriving DecidableEq

/-- The function `init` of `client.go`, up to the assignment of `DefaultClient`: the
five blocks, or the message of the `log.Fatalf` that ends the process. -/
def init : Except GoString Blocks :=
  match ParseCIDR "10.0.0.0/8".toList with
  | none => .error "10.0.0.0/8 must be parsed".toList
  | some a =>
    match ParseCIDR "172.16.0.0/12".toList with
    | none => .error "172.16.0.0/12 must be parsed".toList
    | some b =>
      match ParseCIDR "192.168.0.0/16".toList with
      | none => .error "192.168.0.0/16 must be parsed".toList
      | some c =>
        match ParseCIDR "192.0.2.0/24".toList with
        | none => .error "192.0.2.0/24 must be parsed".toList
        | some t =>
          match ParseCIDR "192.88.99.0/24".toList with
          | none => .error "192.88.99.0/24 must be parsed".toList
          | some r => .ok ⟨a, b, c, t, r⟩

/-- The state of the package-level variables once `init` has run. A process in which
`init` ends in `log.Fatalf` runs no further code; the variables then keep their zero
value, here the empty network. -/
def blocks : Blocks :=
  match init with
  | .ok b => b
  | .error _ => ⟨⟨[], []⟩, ⟨[], []⟩, ⟨[], []⟩, ⟨[], []⟩, ⟨[], []⟩⟩

/-- The variable `netPrivateClassA`. -/
def netPrivateClassA : IPNet := blocks.netPrivateClassA

/-- The variable `netPrivateClassB`. -/
def netPrivateClassB : IPNet := blocks.netPrivateClassB

/-- The variable `netPrivateClassC`. -/
def netPrivateClassC : IPNet := blocks.netPrivateClassC

/-- The variable `netTestNet`. -/
def netTestNet : IPNet := blocks.netTestNet

/-- The variable `net6To4Relay`. -/
def net6To4Relay : IPNet := blocks.net6To4Relay

/-- The characters that a literal `c` of a pattern matches under the flag `(?i)`: Go's
`regexp/syntax` closes a literal under `unicode.SimpleFold`, whose orbit of an ASCII
letter is its two cases, and in addition U+017F for `s` and U+212A for `k`. -/
def foldOrbit (c : Char) : List Char :=
  if c = 's' then ['s', 'S', Char.ofNat 0x17F]
  else if c = 'k' then ['k', 'K', Char.ofNat 0x212A]
  else [c.toLower, c.toUpper]

/-- Whether the whole of `s` matches the literal `pat` under `(?i)`. -/
def matchFold : GoString → GoString → Bool
  | [], [] => true
  | p :: pat, c :: s => (foldOrbit p).contains c && matchFold pat s
  | _, _ => false

/-- The class `\s` of Go's `regexp/syntax`, which is `[\t\n\f\r ]`. -/
def perlSpace (c : Char) : Bool :=
  c = '\t' ∨ c = '\n' ∨ c = Char.ofNat 0x0C ∨ c = '\r' ∨ c = ' '

/-- The method `MatchString` of `regLocalhost = regexp.MustCompile("(?i)^localhost$")`:
without the flag `m`, `^` and `$` only match at the two ends of the text. -/
def regLocalhost (s : GoString) : Bool := matchFold "localhost".toList s

/-- The method `MatchString` of `regHasSpace = regexp.MustCompile("(?i)\\s+")`: the
pattern is not anchored, so it matches when some character of the text is in `\s`. -/
def regHasSpace (s : GoString) : Bool := s.any perlSpace

/-- The function `isBadHost` of `client.go`. -/
def isBadHost (host : GoString) : Bool :=
  if regLocalhost host then true
  else if regHasSpace host then true
  else false

/-- The function `isBadIPv4` of `client.go`; `Except.error` is the panic. -/
def isBadIPv4 (ip : IP) : Except GoString Bool :=
  if To4 ip = none then .error "cannot be called for IPv6".toList
  else if Equal ip IPv4bcast || !IsGlobalUnicast ip ||
      Contains netPrivateClassA ip || Contains netPrivateClassB ip || Contains netPrivateClassC ip ||
      Contains netTestNet ip || Contains net6To4Relay ip then .ok true
  else .ok false

/-- The condition `ip.To4() != nil && isBadIPv4(ip)` of `safeAddr`: `isBadIPv4` is
only called when the left operand is true. -/
def isIPv4AndBad (ip : IP) : Except GoString Bool :=
  if To4 ip ≠ none then isBadIPv4 ip else .ok false

/-- The loop `for _, ip := range ips` of `safeAddr`: the address at which the loop
returns its error, `none` when the loop runs to its end. -/
def firstBadIP : List IP → Except GoString (Option IP)
  | [] => .ok none
  | ip :: ips =>
    match isIPv4AndBad ip with
    | .error p => .error p
    | .ok true => .ok (some ip)
    | .ok false => firstBadIP ips

/-- The function `safeAddr` of `client.go`. The result is the pair `(string, error)`
and the trace extended by the calls made; `Except.error` is a panic. -/
def safeAddr (w : World) (hostport : GoString) (tr : Trace) :
    Except GoString ((GoString × Option Error) × Trace) :=
  match SplitHostPort hostport with
  | (_, _, some err) => .ok (([], some err), tr)
  | (host, port, none) =>
    match ParseIP host with
    | some ip =>
      match isIPv4AndBad ip with
      | .error p => .error p
      | .ok true => .ok (([], some (Error.badIP ip)), tr)
      | .ok false => .ok ((JoinHostPort (IPString ip) port, none), tr)
    | none =>
      if isBadHost host then .ok (([], some (Error.badHost host)), tr)
      else
        match w.LookupIP tr host with
        | (ips, err) =>
          let tr := tr ++ [Event.LookupIP host]
          if err ≠ none ∨ ips.length ≤ 0 then .ok (([], err), tr)
          else
            match firstBadIP ips with
            | .error p => .error p
            | .ok (some ip) => .ok (([], some (Error.badIP ip)), tr)
            | .ok none => .ok ((JoinHostPort (IPString (ips.headD [])) port, none), tr)

/-- The function `NewDialer` of `client.go`: the dial function it returns, on the
arguments `network` and `hostport`. The result is the pair `(net.Conn, error)` and the
trace extended by the calls made; `Except.error` is a panic. -/
def NewDialer (w : World) (dialer : Dialer) (network hostport : GoString) (tr : Trace) :
    Except GoString ((Option Conn × Option Error) × Trace) :=
  if network = "tcp".toList ∨ network = "tcp4".toList then
    match safeAddr w hostport tr with
    | .error p => .error p
    | .ok ((addr, err), tr) =>
      if err ≠ none then .ok ((none, err), tr)
      else .ok (dialer.Dial tr "tcp4".toList addr, tr ++ [Event.Dial "tcp4".toList addr])
  else .ok ((none, some Error.unsupportedNetwork), tr)

/-! ## Notions of the specification -/

/-- The IPv4 addresses `a.b.c.d` that `isBadIPv4` rejects, in numbers. -/
def Blocked (a b c d : Byte) : Prop :=
  (a = 255 ∧ b = 255 ∧ c = 255 ∧ d = 255) ∨ (a = 0 ∧ b = 0 ∧ c = 0 ∧ d = 0) ∨ a = 127 ∨
  (224 ≤ a ∧ a ≤ 239) ∨ (a = 169 ∧ b = 254) ∨ a = 10 ∨ (a = 172 ∧ 16 ≤ b ∧ b ≤ 31) ∨
  (a = 192 ∧ b = 168) ∨ (a = 192 ∧ b = 0 ∧ c = 2) ∨ (a = 192 ∧ b = 88 ∧ c = 99)

instance (a b c d : Byte) : Decidable (Blocked a b c d) := by unfold Blocked; infer_instance

/-- The special-purpose IPv4 ranges `240.0.0.0/4`, `100.64.0.0/10`, `198.18.0.0/15`,
`0.0.0.0/8`, `198.51.100.0/24` and `203.0.113.0/24`, as conditions on `a.b.c.d`. -/
def SpecialPurpose (a b c : Byte) : Prop :=
  240 ≤ a ∨ (a = 100 ∧ 64 ≤ b ∧ b ≤ 127) ∨ (a = 198 ∧ 18 ≤ b ∧ b ≤ 19) ∨ a = 0 ∨
  (a = 198 ∧ b = 51 ∧ c = 100) ∨ (a = 203 ∧ b = 0 ∧ c = 113)

instance (a b c : Byte) : Decidable (SpecialPurpose a b c) := by unfold SpecialPurpose; infer_instance

/-- Unicode simple case folding, on the characters that fold to an ASCII letter: the
upper-case ASCII letters, U+017F (long s) and U+212A (Kelvin sign). Two texts, one of
which is ASCII, are equal ignoring case (Go `strings.EqualFold`) when they are equal
after folding each character. -/
def foldTable : List (Char × Char) :=
  [('A', 'a'), ('B', 'b'), ('C', 'c'), ('D', 'd'), ('E', 'e'), ('F', 'f'), ('G', 'g'), ('H', 'h'), ('I', 'i'),
   ('J', 'j'), ('K', 'k'), ('L', 'l'), ('M', 'm'), ('N', 'n'), ('O', 'o'), ('P', 'p'), ('Q', 'q'), ('R', 'r'),
   ('S', 's'), ('T', 't'), ('U', 'u'), ('V', 'v'), ('W', 'w'), ('X', 'x'), ('Y', 'y'), ('Z', 'z'),
   (Char.ofNat 0x17F, 's'), (Char.ofNat 0x212A, 'k')]

/-- The case-folded form of a character. -/
def foldCase (c : Char) : Char := (foldTable.lookup c).getD c

/-- A whitespace character: the Unicode property `White_Space`, which is also Go's
`unicode.IsSpace`. -/
def isWhitespace (c : Char) : Bool :=
  c.toNat ∈ [0x09, 0x0A, 0x0B, 0x0C, 0x0D, 0x20, 0x85, 0xA0, 0x1680, 0x2028, 0x2029, 0x202F, 0x205F, 0x3000] ∨
    (0x2000 ≤ c.toNat ∧ c.toNat ≤ 0x200A)

/-- The canonical dotted-decimal text of the IPv4 address `a.b.c.d`: the four numbers in
decimal, without leading zeros, separated by dots. -/
def dottedDecimal (a b c d : Byte) : GoString :=
  (Nat.repr a.val).toList ++ '.' :: ((Nat.repr b.val).toList ++ '.' ::
    ((Nat.repr c.val).toList ++ '.' :: (Nat.repr d.val).toList))

/-- The IPv4-mapped IPv6 literal `::ffff:a.b.c.d`. -/
def mappedLiteral (a b c d : Byte) : GoString := "::ffff:".toList ++ dottedDecimal a b c d

/-- A port component: a text without colon and without bracket, which is what
`net.SplitHostPort` can return as port. -/
def IsPort (p : GoString) : Prop := ':' ∉ p ∧ '[' ∉ p ∧ ']' ∉ p

instance (p : GoString) : Decidable (IsPort p) := by unfold IsPort; infer_instance

/-! ## Worlds for the examples -/

/-- A resolver that answers every lookup with an error. -/
def deadWorld : World := ⟨fun _ host => ([], some (Error.external host))⟩

/-- A resolver that answers every lookup with a public address followed by a private one. -/
def mixedWorld : World := ⟨fun _ _ => ([IPv4 93 184 216 34, [10, 0, 0, 5]], none)⟩

/-- A resolver that answers the first lookup with a public address and every later
lookup with a loopback address. -/
def rebindingWorld : World :=
  ⟨fun tr _ => if tr = [] then ([IPv4 93 184 216 34], none) else ([IPv4 127 0 0 1], none)⟩

/-- A resolver that answers every lookup with an empty list and no error. -/
def emptyWorld : World := ⟨fun _ _ => ([], none)⟩

/-- A resolver that answers every lookup with the IPv6 address `2001:db8::1` followed by
a public IPv4 address. -/
def sixWorld : World :=
  ⟨fun _ _ => ([[0x20, 0x01, 0x0d, 0xb8, 0, 0, 0, 0, 0, 0, 0, 0, 0, 0, 0, 1], IPv4 93 184 216 34], none)⟩

/-- A dialer that opens a connection at every call. -/
def openDialer : Dialer := ⟨fun tr _ _ => (some ⟨tr.length⟩, none)⟩

/-! ## Lemmas: the blocklist and `isBadIPv4` in numbers -/

set_option maxRecDepth 100000 in
theorem byte_and_255 : ∀ a : Byte, a &&& 255 = a := by decide
set_option maxRecDepth 100000 in
theorem byte_and_0 : ∀ a : Byte, a &&& 0 = 0 := by decide
set_option maxRecDepth 100000 in
theorem byte_and_240_16 : ∀ b : Byte, ((16 : Byte) &&& 240 = b &&& 240) = (16 ≤ b ∧ b ≤ 31) := by decide
set_option maxRecDepth 100000 in
theorem byte_and_240_224 : ∀ a : Byte, (a &&& 240 = 224) = (224 ≤ a ∧ a ≤ 239) := by decide

theorem netPrivateClassA_eq : netPrivateClassA = ⟨[10, 0, 0, 0], [255, 0, 0, 0]⟩ := by decide
theorem netPrivateClassB_eq : netPrivateClassB = ⟨[172, 16, 0, 0], [255, 240, 0, 0]⟩ := by decide
theorem netPrivateClassC_eq : netPrivateClassC = ⟨[192, 168, 0, 0], [255, 255, 0, 0]⟩ := by decide
theorem netTestNet_eq : netTestNet = ⟨[192, 0, 2, 0], [255, 255, 255, 0]⟩ := by decide
theorem net6To4Relay_eq : net6To4Relay = ⟨[192, 88, 99, 0], [255, 255, 255, 0]⟩ := by decide

theorem To4_four (a b c d : Byte) : To4 [a, b, c, d] = some [a, b, c, d] := by
  simp [To4, IPv4len]

theorem To4_IPv4 (a b c d : Byte) : To4 (IPv4 a b c d) = some [a, b, c, d] := by
  simp [To4, IPv4, v4InV6Prefix, IPv4len, IPv6len, isZeros, idx]

theorem Contains_four (n0 n1 n2 n3 m0 m1 m2 m3 a b c d : Byte) :
    Contains ⟨[n0, n1, n2, n3], [m0, m1, m2, m3]⟩ [a, b, c, d] =
      decide (n0 &&& m0 = a &&& m0 ∧ n1 &&& m1 = b &&& m1 ∧ n2 &&& m2 = c &&& m2 ∧ n3 &&& m3 = d &&& m3) := by
  rw [Bool.eq_iff_iff]
  simp [Contains, To4_four, networkNumberAndMask, IPv4len, maskedEq, idx]

theorem Equal_four_bcast (a b c d : Byte) :
    Equal [a, b, c, d] IPv4bcast = decide (a = 255 ∧ b = 255 ∧ c = 255 ∧ d = 255) := by
  rw [Bool.eq_iff_iff]
  simp [Equal, IPv4bcast, IPv4, v4InV6Prefix, IPv4len, IPv6len]

theorem Equal_four_zero (a b c d : Byte) :
    Equal [a, b, c, d] IPv4zero = decide (a = 0 ∧ b = 0 ∧ c = 0 ∧ d = 0) := by
  rw [Bool.eq_iff_iff]
  simp [Equal, IPv4zero, IPv4, v4InV6Prefix, IPv4len, IPv6len]

theorem Equal_four_unspecified (a b c d : Byte) : Equal [a, b, c, d] IPv6unspecified = false := by
  simp [Equal, IPv6unspecified, IPv4len, IPv6len, v4InV6Prefix]

theorem IsGlobalUnicast_four (a b c d : Byte) :
    IsGlobalUnicast [a, b, c, d] = decide (¬ (a = 255 ∧ b = 255 ∧ c = 255 ∧ d = 255) ∧
      ¬ (a = 0 ∧ b = 0 ∧ c = 0 ∧ d = 0) ∧ ¬ a = 127 ∧ ¬ (224 ≤ a ∧ a ≤ 239) ∧ ¬ (a = 169 ∧ b = 254)) := by
  rw [Bool.eq_iff_iff]
  simp only [IsGlobalUnicast, IsUnspecified, IsLoopback, IsMulticast, IsLinkLocalUnicast, Equal_four_bcast,
    Equal_four_zero, Equal_four_unspecified, To4_four, idx, List.getD_cons_zero, List.getD_cons_succ,
    Bool.or_eq_true, Bool.and_eq_true, Bool.not_eq_true', decide_eq_true_eq, beq_iff_eq, Bool.or_false,
    decide_eq_false_iff_not, beq_eq_false_iff_ne, ne_eq, byte_and_240_224, Bool.and_eq_false_iff,
    List.length_cons, List.length_nil, IPv4len, IPv6len]
  simp only [not_and_or, and_assoc]
  simp

theorem not_IsGlobalUnicast_four (a b c d : Byte) :
    (!IsGlobalUnicast [a, b, c, d]) = decide ((a = 255 ∧ b = 255 ∧ c = 255 ∧ d = 255) ∨
      (a = 0 ∧ b = 0 ∧ c = 0 ∧ d = 0) ∨ a = 127 ∨ (224 ≤ a ∧ a ≤ 239) ∨ (a = 169 ∧ b = 254)) := by
  rw [IsGlobalUnicast_four, Bool.eq_iff_iff]
  simp only [Bool.not_eq_true', decide_eq_false_iff_not, decide_eq_true_eq]
  simp only [Decidable.not_and_iff_or_not_not, not_or, not_not]

theorem isBadIPv4_four (a b c d : Byte) :
    isBadIPv4 [a, b, c, d] = .ok (decide (Blocked a b c d)) := by
  have h : (Equal [a, b, c, d] IPv4bcast || !IsGlobalUnicast [a, b, c, d] ||
      Contains netPrivateClassA [a, b, c, d] || Contains netPrivateClassB [a, b, c, d] || Contains netPrivateClassC [a, b, c, d] ||
      Contains netTestNet [a, b, c, d] || Contains net6To4Relay [a, b, c, d]) = decide (Blocked a b c d) := by
    rw [Bool.eq_iff_iff]
    simp only [netPrivateClassA_eq, netPrivateClassB_eq, netPrivateClassC_eq, netTestNet_eq, net6To4Relay_eq,
      Contains_four, Equal_four_bcast, not_IsGlobalUnicast_four, byte_and_255, byte_and_0, byte_and_240_16, Blocked,
      Bool.or_eq_true, decide_eq_true_eq, and_true, eq_comm (a := (10 : Byte)), eq_comm (a := (172 : Byte)),
      eq_comm (a := (192 : Byte)), eq_comm (a := (168 : Byte)), eq_comm (a := (0 : Byte)), eq_comm (a := (2 : Byte)),
      eq_comm (a := (88 : Byte)), eq_comm (a := (99 : Byte))]
    simp only [or_assoc, or_self_left]
  simp only [isBadIPv4, To4_four, h]
  by_cases hb : Blocked a b c d <;> simp [hb]

theorem Equal_IPv4_IPv4 (a b c d a' b' c' d' : Byte) :
    Equal (IPv4 a b c d) (IPv4 a' b' c' d') = decide (a = a' ∧ b = b' ∧ c = c' ∧ d = d') := by
  rw [Bool.eq_iff_iff]
  simp [Equal, IPv4, v4InV6Prefix]

theorem Equal_IPv4_unspecified (a b c d : Byte) : Equal (IPv4 a b c d) IPv6unspecified = false := by
  simp [Equal, IPv6unspecified, IPv4, v4InV6Prefix]

theorem IsGlobalUnicast_IPv4 (a b c d : Byte) :
    IsGlobalUnicast (IPv4 a b c d) = IsGlobalUnicast [a, b, c, d] := by
  simp only [IsGlobalUnicast, IsUnspecified, IsLoopback, IsMulticast, IsLinkLocalUnicast, To4_four, To4_IPv4,
    IPv4bcast, IPv4zero, Equal_IPv4_IPv4, Equal_IPv4_unspecified, Equal_four_unspecified]
  rw [← IPv4bcast, ← IPv4zero, Equal_four_bcast, Equal_four_zero]
  simp [IPv4, v4InV6Prefix, IPv4len, IPv6len]

theorem Contains_IPv4 (n : IPNet) (a b c d : Byte) : Contains n (IPv4 a b c d) = Contains n [a, b, c, d] := by
  simp only [Contains, To4_four, To4_IPv4]

theorem isBadIPv4_IPv4 (a b c d : Byte) : isBadIPv4 (IPv4 a b c d) = isBadIPv4 [a, b, c, d] := by
  simp only [isBadIPv4, To4_four, To4_IPv4, Contains_IPv4, IsGlobalUnicast_IPv4]
  rw [IPv4bcast, Equal_IPv4_IPv4, ← IPv4bcast, Equal_four_bcast]

theorem To4_length {ip v : IP} (h : To4 ip = some v) : v.length = 4 := by
  unfold To4 at h
  split_ifs at h with h1 h2
  · cases h; exact h1
  · cases h; simp [IPv6len] at h2; simp [h2.1]

theorem To4_cases {ip : IP} {a b c d : Byte} (h : To4 ip = some [a, b, c, d]) :
    ip = [a, b, c, d] ∨ ip = IPv4 a b c d := by
  unfold To4 at h
  split_ifs at h with h1 h2
  · left; cases h; rfl
  · right
    obtain ⟨hl, hz, h10, h11⟩ := h2
    simp only [Option.some.injEq] at h
    match ip, hl with
    | [x0,x1,x2,x3,x4,x5,x6,x7,x8,x9,x10,x11,x12,x13,x14,x15], _ =>
      simp [isZeros, idx] at hz h10 h11 h
      simp [IPv4, v4InV6Prefix, hz, h10, h11, h]

theorem isBadIPv4_of_To4 {ip : IP} {a b c d : Byte} (h : To4 ip = some [a, b, c, d]) :
    isBadIPv4 ip = .ok (decide (Blocked a b c d)) := by
  rcases To4_cases h with rfl | rfl
  · exact isBadIPv4_four a b c d
  · rw [isBadIPv4_IPv4, isBadIPv4_four]

theorem To4_exists {ip v : IP} (h : To4 ip = some v) : ∃ a b c d, v = [a, b, c, d] := by
  have hl := To4_length h
  match v, hl with
  | [a, b, c, d], _ => exact ⟨a, b, c, d, rfl⟩

/-! ## Lemmas: `safeAddr` -/

theorem isIPv4AndBad_total (ip : IP) : ∃ b, isIPv4AndBad ip = .ok b := by
  unfold isIPv4AndBad
  by_cases h : To4 ip = none
  · simp [h]
  · simp only [ne_eq, h, not_false_eq_true, if_true]
    obtain ⟨v, hv⟩ := Option.ne_none_iff_exists'.mp h
    obtain ⟨a, b, c, d, rfl⟩ := To4_exists hv
    exact ⟨_, isBadIPv4_of_To4 hv⟩

theorem firstBadIP_total (ips : List IP) : ∃ r, firstBadIP ips = .ok r := by
  induction ips with
  | nil => exact ⟨none, rfl⟩
  | cons ip ips ih =>
    obtain ⟨b, hb⟩ := isIPv4AndBad_total ip
    cases b <;> simp [firstBadIP, hb, ih]

theorem firstBadIP_some {ips : List IP} {ip : IP} (h : firstBadIP ips = .ok (some ip)) :
    ip ∈ ips ∧ To4 ip ≠ none ∧ isBadIPv4 ip = .ok true := by
  induction ips with
  | nil => simp [firstBadIP] at h
  | cons x ips ih =>
    obtain ⟨b, hb⟩ := isIPv4AndBad_total x
    cases b
    · simp only [firstBadIP, hb] at h
      obtain ⟨h1, h2⟩ := ih h
      exact ⟨List.mem_cons_of_mem _ h1, h2⟩
    · simp only [firstBadIP, hb, Except.ok.injEq, Option.some.injEq] at h
      subst h
      refine ⟨List.mem_cons_self _ _, ?_⟩
      unfold isIPv4AndBad at hb
      by_cases h4 : To4 x = none
      · simp [h4] at hb
      · simp only [ne_eq, h4, not_false_eq_true, if_true] at hb
        exact ⟨h4, hb⟩

theorem firstBadIP_none {ips : List IP} (h : firstBadIP ips = .ok none) :
    ∀ ip ∈ ips, isIPv4AndBad ip = .ok false := by
  induction ips with
  | nil => simp
  | cons x ips ih =>
    obtain ⟨b, hb⟩ := isIPv4AndBad_total x
    cases b
    · simp only [firstBadIP, hb] at h
      intro ip hip
      rcases List.mem_cons.mp hip with rfl | h'
      · exact hb
      · exact ih h ip h'
    · simp [firstBadIP, hb] at h

theorem firstBadIP_of_mem {ips : List IP} {bad : IP} (hmem : bad ∈ ips) (h4 : To4 bad ≠ none)
    (hb : isBadIPv4 bad = .ok true) : ∃ ip, firstBadIP ips = .ok (some ip) := by
  obtain ⟨r, hr⟩ := firstBadIP_total ips
  cases r with
  | some ip => exact ⟨ip, hr⟩
  | none =>
    have := firstBadIP_none hr bad hmem
    simp [isIPv4AndBad, h4, hb] at this

theorem safeAddr_total (w : World) (hostport : GoString) (tr : Trace) :
    ∃ s err tr', safeAddr w hostport tr = .ok ((s, err), tr') ∧
      (tr' = tr ∨ ∃ host, tr' = tr ++ [Event.LookupIP host]) := by
  unfold safeAddr
  rcases hs : SplitHostPort hostport with ⟨host, port, _ | err⟩
  · simp only
    cases hp : ParseIP host with
    | some ip =>
      obtain ⟨b, hb⟩ := isIPv4AndBad_total ip
      cases b <;> simp only [hb] <;> exact ⟨_, _, _, rfl, Or.inl rfl⟩
    | none =>
      simp only
      by_cases hh : isBadHost host = true
      · simp only [hh, if_true]
        exact ⟨_, _, _, rfl, Or.inl rfl⟩
      · simp only [hh, Bool.false_eq_true, if_false]
        split_ifs
        · exact ⟨_, _, _, rfl, Or.inr ⟨host, rfl⟩⟩
        · obtain ⟨r, hr⟩ := firstBadIP_total (w.LookupIP tr host).1
          cases r <;> simp only [hr] <;> exact ⟨_, _, _, rfl, Or.inr ⟨host, rfl⟩⟩
  · exact ⟨_, _, _, rfl, Or.inl rfl⟩

theorem safeAddr_congr (w w' : World) (hostport : GoString) (tr : Trace)
    (h : ∀ host, w'.LookupIP tr host = w.LookupIP tr host) :
    safeAddr w' hostport tr = safeAddr w hostport tr := by
  simp only [safeAddr, h]

theorem safeAddr_literal_bad {hostport host port : GoString} {ip : IP} (w : World) (tr : Trace)
    (hs : SplitHostPort hostport = (host, port, none)) (hp : ParseIP host = some ip)
    (h4 : To4 ip ≠ none) (hb : isBadIPv4 ip = .ok true) :
    safeAddr w hostport tr = .ok (([], some (Error.badIP ip)), tr) := by
  simp [safeAddr, hs, hp, isIPv4AndBad, h4, hb]

theorem safeAddr_literal_ok {hostport host port : GoString} {ip : IP} (w : World) (tr : Trace)
    (hs : SplitHostPort hostport = (host, port, none)) (hp : ParseIP host = some ip)
    (hb : isIPv4AndBad ip = .ok false) :
    safeAddr w hostport tr = .ok ((JoinHostPort (IPString ip) port, none), tr) := by
  simp [safeAddr, hs, hp, hb]

theorem isBadIPv4_of_Blocked {ip : IP} {a b c d : Byte} (h4 : To4 ip = some [a, b, c, d])
    (h : Blocked a b c d) : isBadIPv4 ip = .ok true := by
  rw [isBadIPv4_of_To4 h4]; simp [h]

theorem isBadIPv4_of_not_Blocked {ip : IP} {a b c d : Byte} (h4 : To4 ip = some [a, b, c, d])
    (h : ¬ Blocked a b c d) : isBadIPv4 ip = .ok false := by
  rw [isBadIPv4_of_To4 h4]; simp [h]

/-! ## Lemmas: `isBadHost` -/

theorem lookup_getD_eq_iff (l : List (Char × Char)) (hnd : (l.map Prod.fst).Nodup) (c p : Char) :
    (l.lookup c).getD c = p ↔ (c, p) ∈ l ∨ (c = p ∧ c ∉ l.map Prod.fst) := by
  induction l with
  | nil => simp [List.lookup]
  | cons kv t ih =>
    obtain ⟨k, v⟩ := kv
    simp only [List.map_cons, List.nodup_cons] at hnd
    by_cases hck : c = k
    · subst hck
      have hnot : ∀ q, (c, q) ∉ t := fun q hq => hnd.1 (List.mem_map.mpr ⟨(c, q), hq, rfl⟩)
      simp [List.lookup, hnot, eq_comm]
    · have hb : (c == k) = false := by simpa using hck
      simp only [List.lookup, hb, ih hnd.2, List.mem_cons, Prod.mk.injEq, hck, false_and, false_or,
        List.map_cons, not_or, not_false_eq_true, true_and]

theorem foldTable_nodup : (foldTable.map Prod.fst).Nodup := by decide

theorem localhost_keys : ∀ p ∈ "localhost".toList, p ∉ foldTable.map Prod.fst := by decide

theorem localhost_orbit : ∀ p ∈ "localhost".toList,
    (p ≠ 's' ∧ foldOrbit p = [p, p.toUpper]) ∨ (p = 's' ∧ foldOrbit p = ['s', 'S', Char.ofNat 0x17F]) := by
  decide

theorem foldOrbit_iff (p : Char) (hp : p ∈ "localhost".toList) (c : Char) :
    (foldOrbit p).contains c = true ↔ foldCase c = p := by
  unfold foldCase
  rw [lookup_getD_eq_iff _ foldTable_nodup]
  have hr : (c = p ∧ c ∉ foldTable.map Prod.fst) ↔ c = p :=
    and_iff_left_of_imp (fun h => h ▸ localhost_keys p hp)
  rw [hr]
  have ho := localhost_orbit p hp
  have ht : ∀ q, (q, p) ∈ foldTable ↔ q = p.toUpper ∨ (p = 's' ∧ q = Char.ofNat 0x17F) := by
    intro q
    simp only [String.toList, List.mem_cons, List.mem_singleton, List.not_mem_nil, or_false] at hp
    rcases hp with rfl | rfl | rfl | rfl | rfl | rfl | rfl | rfl | rfl <;>
      simp [foldTable, Char.toUpper]
  rw [ht]
  rcases ho with ⟨hs, ho⟩ | ⟨rfl, ho⟩
  · rw [ho]
    simp [hs, or_comm]
  · rw [ho]
    simp [Char.toUpper]
    tauto

theorem matchFold_iff (pat : GoString) (hpat : ∀ p ∈ pat, p ∈ "localhost".toList) (s : GoString) :
    matchFold pat s = true ↔ s.map foldCase = pat := by
  induction pat generalizing s with
  | nil => cases s <;> simp [matchFold]
  | cons p pat ih =>
    cases s with
    | nil => simp [matchFold]
    | cons c s =>
      simp only [matchFold, Bool.and_eq_true, List.map_cons, List.cons.injEq]
      rw [foldOrbit_iff p (hpat p (List.mem_cons_self _ _)), ih (fun q hq => hpat q (List.mem_cons_of_mem _ hq))]

theorem regLocalhost_iff (s : GoString) : regLocalhost s = true ↔ s.map foldCase = "localhost".toList :=
  matchFold_iff _ (fun _ h => h) s


theorem isBadHost_eq_true_iff (host : GoString) :
    isBadHost host = true ↔
      (host.map foldCase = "localhost".toList ∨
        ∃ c ∈ host, c = '\t' ∨ c = '\n' ∨ c = Char.ofNat 0x0C ∨ c = '\r' ∨ c = ' ') := by
  unfold isBadHost
  rw [← regLocalhost_iff]
  by_cases h1 : regLocalhost host = true
  · simp [h1]
  · simp only [h1, Bool.false_eq_true, if_false, false_or]
    simp [regHasSpace, perlSpace]

/-! ## Lemmas: `SplitHostPort` and `JoinHostPort` -/

theorem IndexByteString_isSome (s : GoString) (c : Char) : (IndexByteString s c).isSome = true ↔ c ∈ s := by
  induction s with
  | nil => simp [IndexByteString]
  | cons x s ih =>
    by_cases h : x = c
    · simp [IndexByteString, h]
    · simp [IndexByteString, h, ih, Ne.symm h]

theorem IndexByteString_eq_none (s : GoString) (c : Char) : IndexByteString s c = none ↔ c ∉ s := by
  rw [← IndexByteString_isSome]
  cases IndexByteString s c <;> simp

theorem IndexByteString_append (a b : GoString) (c : Char) (h : c ∉ a) :
    IndexByteString (a ++ c :: b) c = some a.length := by
  induction a with
  | nil => simp [IndexByteString]
  | cons x a ih =>
    simp only [List.mem_cons, not_or] at h
    simp [IndexByteString, Ne.symm h.1, ih h.2]

theorem LastIndexByteString_eq_none (s : GoString) (c : Char) : LastIndexByteString s c = none ↔ c ∉ s := by
  induction s with
  | nil => simp [LastIndexByteString]
  | cons x s ih =>
    simp only [LastIndexByteString, List.mem_cons, not_or]
    cases hl : LastIndexByteString s c with
    | none =>
      have := ih.mp hl
      by_cases h : x = c
      · simp [h]
      · simp [h, this, Ne.symm h]
    | some i =>
      have : ¬ c ∉ s := fun hn => by rw [ih.mpr hn] at hl; cases hl
      simp [this]

theorem LastIndexByteString_append (a b : GoString) (c : Char) (h : c ∉ b) :
    LastIndexByteString (a ++ c :: b) c = some a.length := by
  induction a with
  | nil => simp [LastIndexByteString, (LastIndexByteString_eq_none b c).mpr h]
  | cons x a ih => simp [LastIndexByteString, ih]

theorem LastIndexByteString_some {s : GoString} {c : Char} {i : Nat} (h : LastIndexByteString s c = some i) :
    c ∉ s.drop (i + 1) := by
  induction s generalizing i with
  | nil => simp [LastIndexByteString] at h
  | cons x s ih =>
    simp only [LastIndexByteString] at h
    cases hl : LastIndexByteString s c with
    | none =>
      rw [hl] at h
      by_cases hx : x = c
      · simp only [hx, if_true, Option.some.injEq] at h
        subst h
        simpa using (LastIndexByteString_eq_none s c).mp hl
      · simp [hx] at h
    | some j =>
      rw [hl] at h
      simp only [Option.some.injEq] at h
      subst h
      simpa using ih hl

theorem SplitHostPort_join_plain (h p : GoString) (h1 : ':' ∉ h) (h2 : '[' ∉ h) (h3 : ']' ∉ h)
    (p1 : ':' ∉ p) (p2 : '[' ∉ p) (p3 : ']' ∉ p) :
    SplitHostPort (h ++ ':' :: p) = (h, p, none) := by
  have hhead : (h ++ ':' :: p).head? ≠ some '[' := by
    cases h with
    | nil => simp
    | cons x h => simp only [List.mem_cons, not_or] at h2; simp [Ne.symm h2.1]
  have hi1 : IndexByteString h ':' = none := (IndexByteString_eq_none _ _).mpr h1
  have hi2 : IndexByteString (h ++ ':' :: p) '[' = none := (IndexByteString_eq_none _ _).mpr (by simp [h2, p2])
  have hi3 : IndexByteString (h ++ ':' :: p) ']' = none := (IndexByteString_eq_none _ _).mpr (by simp [h3, p3])
  have hhead' : h.head? ≠ some '[' := by
    cases h with
    | nil => simp
    | cons x h => simp only [List.mem_cons, not_or] at h2; simp [Ne.symm h2.1]
  simp [SplitHostPort, LastIndexByteString_append h p ':' p1, hhead, hhead', hi1, hi2, hi3]

theorem SplitHostPort_join_bracket (h p : GoString) (h2 : '[' ∉ h) (h3 : ']' ∉ h)
    (p1 : ':' ∉ p) (p2 : '[' ∉ p) (p3 : ']' ∉ p) :
    SplitHostPort ('[' :: (h ++ ']' :: ':' :: p)) = (h, p, none) := by
  have e1 : '[' :: (h ++ ']' :: ':' :: p) = ('[' :: h ++ [']']) ++ ':' :: p := by simp
  have hl : LastIndexByteString ('[' :: (h ++ ']' :: ':' :: p)) ':' = some (h.length + 2) := by
    rw [e1, LastIndexByteString_append _ p ':' p1]; simp
  have hi : IndexByteString ('[' :: (h ++ ']' :: ':' :: p)) ']' = some (h.length + 1) := by
    have := IndexByteString_append ('[' :: h) (':' :: p) ']' (by simp [h3])
    simpa using this
  have hi2 : IndexByteString (h ++ ']' :: ':' :: p) '[' = none :=
    (IndexByteString_eq_none _ _).mpr (by simp [h2, p2])
  have hi3 : IndexByteString (':' :: p) ']' = none := (IndexByteString_eq_none _ _).mpr (by simp [p3])
  simp [SplitHostPort, hl, hi, hi2, hi3]

theorem mem_drop_of_le {c : Char} {s : GoString} {j i : Nat} (hji : j ≤ i) (h : c ∈ s.drop i) : c ∈ s.drop j := by
  have : s.drop i = (s.drop j).drop (i - j) := by rw [List.drop_drop]; congr 1; omega
  rw [this] at h
  exact List.mem_of_mem_drop h

theorem SplitHostPort_port {hostport host port : GoString} (h : SplitHostPort hostport = (host, port, none)) :
    ':' ∉ port ∧ '[' ∉ port ∧ ']' ∉ port := by
  unfold SplitHostPort at h
  cases hl : LastIndexByteString hostport ':' with
  | none => simp [hl] at h
  | some i =>
    simp only [hl] at h
    have hcolon := LastIndexByteString_some hl
    split at h
    · rename_i e hsplit
      subst h
      exfalso
      split_ifs at hsplit with c1 c2
      · split at hsplit
        · simp at hsplit
        · split_ifs at hsplit <;> simp at hsplit
      · simp at hsplit
    · rename_i host' j k hsplit
      have hjk : j ≤ i + 1 ∧ k ≤ i + 1 := by
        split_ifs at hsplit with c1 c2
        · split at hsplit
          · simp at hsplit
          · split_ifs at hsplit with d1 d2 d3
            simp only [Sum.inl.injEq, Prod.mk.injEq] at hsplit
            omega
        · simp only [Sum.inl.injEq, Prod.mk.injEq] at hsplit
          omega
      split_ifs at h with hb1 hb2
      · simp at h
      · simp at h
      · simp only [Prod.mk.injEq, and_true] at h
        obtain ⟨-, rfl⟩ := h
        refine ⟨hcolon, fun hm => ?_, fun hm => ?_⟩
        · exact hb1 ((IndexByteString_isSome _ _).mpr (mem_drop_of_le hjk.1 hm))
        · exact hb2 ((IndexByteString_isSome _ _).mpr (mem_drop_of_le hjk.2 hm))

/-! ## Lemmas: reading back the text of an IPv4 address -/

theorem digit_dec : ∀ n : Fin 10, ('0' ≤ digit n ∧ digit n ≤ '9') ∧ (digit n).toNat = 48 + n.val ∧
    digit n ≠ '.' ∧ digit n ≠ ':' ∧ digit n ≠ '%' ∧ digit n ≠ '[' ∧ digit n ≠ ']' := by decide

theorem parseIPv4FieldsLoop_digit (n : Nat) (hn : n < 10) (s : GoString) (prev : Option Char)
    (val pos digLen : Nat) (fields : List Byte) :
    parseIPv4FieldsLoop (digit n :: s) prev val pos digLen fields =
      if digLen = 1 ∧ val = 0 then none
      else if val * 10 + n > 255 then none
      else parseIPv4FieldsLoop s (some (digit n)) (val * 10 + n) pos (digLen + 1) fields := by
  obtain ⟨h1, h2, -⟩ := digit_dec ⟨n, hn⟩
  simp only at h1 h2
  have e : val * 10 + (digit n).toNat - '0'.toNat = val * 10 + n := by
    rw [h2]; simp
    omega
  simp only [parseIPv4FieldsLoop, h1, and_self, if_true, e]

theorem appendDecimal_eq (ret : GoString) (x : Byte) : appendDecimal ret x = ret ++ appendDecimal [] x := by
  unfold appendDecimal
  split_ifs <;> simp

theorem appendDecimal_ne_nil (x : Byte) : appendDecimal [] x ≠ [] := by
  unfold appendDecimal
  split_ifs <;> simp

theorem parseIPv4FieldsLoop_decimal (x : Byte) (s : GoString) (prev : Option Char) (pos : Nat)
    (fields : List Byte) :
    ∃ c n, c ≠ '.' ∧ parseIPv4FieldsLoop (appendDecimal [] x ++ s) prev 0 pos 0 fields =
      parseIPv4FieldsLoop s (some c) x.val pos n fields := by
  have hx := x.isLt
  unfold appendDecimal
  by_cases h100 : x.val ≥ 100
  · have h10 : x.val ≥ 10 := by omega
    refine ⟨digit (x.val % 10), 3, (digit_dec ⟨x.val % 10, by omega⟩).2.2.1, ?_⟩
    simp only [h100, h10, if_true, List.nil_append, List.cons_append, List.singleton_append]
    rw [parseIPv4FieldsLoop_digit _ (by omega), parseIPv4FieldsLoop_digit _ (by omega),
      parseIPv4FieldsLoop_digit _ (by omega)]
    have e1 : ¬ (0 * 10 + x.val / 100 > 255) := by omega
    have e2 : ¬ ((0 * 10 + x.val / 100) * 10 + x.val / 10 % 10 > 255) := by omega
    have e3 : ¬ (((0 * 10 + x.val / 100) * 10 + x.val / 10 % 10) * 10 + x.val % 10 > 255) := by omega
    have e4 : ((0 * 10 + x.val / 100) * 10 + x.val / 10 % 10) * 10 + x.val % 10 = x.val := by omega
    have e5 : ¬ (0 + 1 = 1 ∧ 0 * 10 + x.val / 100 = 0) := by omega
    have f1 : x.val / 100 ≠ 0 := by omega
    have f2 : ¬ 255 < x.val := by omega
    simp only [e1, e2, e3, e4, e5, if_false]
    simp [f1, f2]
  · by_cases h10 : x.val ≥ 10
    · refine ⟨digit (x.val % 10), 2, (digit_dec ⟨x.val % 10, by omega⟩).2.2.1, ?_⟩
      simp only [h100, h10, if_true, if_false, List.nil_append, List.cons_append, List.singleton_append]
      rw [parseIPv4FieldsLoop_digit _ (by omega), parseIPv4FieldsLoop_digit _ (by omega)]
      have e1 : ¬ (0 * 10 + x.val / 10 % 10 > 255) := by omega
      have e3 : ¬ ((0 * 10 + x.val / 10 % 10) * 10 + x.val % 10 > 255) := by omega
      have e4 : (0 * 10 + x.val / 10 % 10) * 10 + x.val % 10 = x.val := by omega
      have e5 : ¬ (0 + 1 = 1 ∧ 0 * 10 + x.val / 10 % 10 = 0) := by omega
      have f1 : x.val / 10 % 10 ≠ 0 := by omega
      have f2 : ¬ 255 < x.val := by omega
      simp only [e1, e3, e4, e5, if_false]
      simp [f1, f2]
    · refine ⟨digit (x.val % 10), 1, (digit_dec ⟨x.val % 10, by omega⟩).2.2.1, ?_⟩
      simp only [h100, h10, if_false, List.nil_append, List.cons_append, List.singleton_append]
      rw [parseIPv4FieldsLoop_digit _ (by omega)]
      have e1 : ¬ (0 * 10 + x.val % 10 > 255) := by omega
      have e4 : 0 * 10 + x.val % 10 = x.val := by omega
      have f2 : ¬ 255 < x.val := by omega
      simp only [e1, e4, if_false]
      simp [f2]

theorem parseIPv4FieldsLoop_dot (s : GoString) (c : Char) (hc : c ≠ '.') (hs : s ≠ []) (val pos n : Nat)
    (hpos : pos < 3) (fields : List Byte) :
    parseIPv4FieldsLoop ('.' :: s) (some c) val pos n fields =
      parseIPv4FieldsLoop s (some '.') 0 (pos + 1) 0 (fields ++ [toByte val]) := by
  have h1 : ¬ ('0' ≤ '.' ∧ '.' ≤ '9') := by decide
  have h2 : pos ≠ 3 := by omega
  simp [parseIPv4FieldsLoop, h1, hc, hs, h2]

theorem toByte_val (x : Byte) : toByte x.val = x := by
  apply Fin.ext
  simp [toByte, Nat.mod_eq_of_lt x.isLt]

theorem appendTo4_eq (a b c d : Byte) :
    appendTo4 [] [a, b, c, d] = appendDecimal [] a ++ '.' :: (appendDecimal [] b ++ '.' ::
      (appendDecimal [] c ++ '.' :: appendDecimal [] d)) := by
  simp only [appendTo4, idx, List.getD_cons_zero, List.getD_cons_succ]
  rw [appendDecimal_eq (_ ++ ['.']) d, appendDecimal_eq (_ ++ ['.']) c, appendDecimal_eq (_ ++ ['.']) b]
  simp

theorem parseIPv4Fields_appendTo4 (a b c d : Byte) :
    parseIPv4Fields (appendTo4 [] [a, b, c, d]) = some [a, b, c, d] := by
  rw [appendTo4_eq, parseIPv4Fields]
  obtain ⟨c1, n1, hc1, e1⟩ := parseIPv4FieldsLoop_decimal a
    ('.' :: (appendDecimal [] b ++ '.' :: (appendDecimal [] c ++ '.' :: appendDecimal [] d))) none 0 []
  rw [e1, parseIPv4FieldsLoop_dot _ c1 hc1 (by simp [appendDecimal_ne_nil]) _ _ _ (by omega)]
  obtain ⟨c2, n2, hc2, e2⟩ := parseIPv4FieldsLoop_decimal b
    ('.' :: (appendDecimal [] c ++ '.' :: appendDecimal [] d)) (some '.') (0 + 1) ([] ++ [toByte a.val])
  rw [e2, parseIPv4FieldsLoop_dot _ c2 hc2 (by simp [appendDecimal_ne_nil]) _ _ _ (by omega)]
  obtain ⟨c3, n3, hc3, e3⟩ := parseIPv4FieldsLoop_decimal c
    ('.' :: appendDecimal [] d) (some '.') (0 + 1 + 1) ([] ++ [toByte a.val] ++ [toByte b.val])
  rw [e3, parseIPv4FieldsLoop_dot _ c3 hc3 (appendDecimal_ne_nil d) _ _ _ (by omega)]
  obtain ⟨c4, n4, hc4, e4⟩ := parseIPv4FieldsLoop_decimal d
    [] (some '.') (0 + 1 + 1 + 1) ([] ++ [toByte a.val] ++ [toByte b.val] ++ [toByte c.val])
  rw [List.append_nil] at e4
  rw [e4]
  simp [parseIPv4FieldsLoop, toByte_val]

/-! ## Lemmas: reading back the text of an IPv6 address -/

theorem digit_hex : ∀ n : Fin 16,
    ((('0' ≤ digit n ∧ digit n ≤ '9') ∧ (digit n).toNat - '0'.toNat = n.val) ∨
      (¬ ('0' ≤ digit n ∧ digit n ≤ '9') ∧ ('a' ≤ digit n ∧ digit n ≤ 'f') ∧
        (digit n).toNat - 'a'.toNat + 10 = n.val)) ∧
    digit n ≠ '.' ∧ digit n ≠ ':' ∧ digit n ≠ '%' ∧ digit n ≠ '[' ∧ digit n ≠ ']' := by decide

theorem parseHexLoop_digit (n : Nat) (hn : n < 16) (s : GoString) (acc off : Nat) :
    parseHexLoop (digit n :: s) acc off =
      if off > 3 then none
      else if acc * 16 + n > 0xFFFF then none
      else parseHexLoop s (acc * 16 + n) (off + 1) := by
  have hsh : acc <<< 4 = acc * 16 := by simp [Nat.shiftLeft_eq]
  rcases (digit_hex ⟨n, hn⟩).1 with ⟨h1, h2⟩ | ⟨h1, h2, h3⟩
  · simp only at h1 h2
    simp only [parseHexLoop, h1, and_self, if_true, h2, hsh]
  · simp only at h1 h2 h3
    simp only [parseHexLoop, h1, if_false, h2, and_self, if_true, h3, hsh]

theorem parseHexLoop_colon (s : GoString) (acc off : Nat) :
    parseHexLoop (':' :: s) acc off = some (acc, off, ':' :: s) := by
  have h1 : ¬ ('0' ≤ ':' ∧ ':' ≤ '9') := by decide
  have h2 : ¬ ('a' ≤ ':' ∧ ':' ≤ 'f') := by decide
  have h3 : ¬ ('A' ≤ ':' ∧ ':' ≤ 'F') := by decide
  simp only [parseHexLoop, h1, h2, h3, if_false]

theorem appendHex_eq (ret : GoString) (x : Nat) : appendHex ret x = ret ++ appendHex [] x := by
  unfold appendHex
  split_ifs <;> simp

theorem hex_bits (x : Nat) : x >>> 12 = x / 4096 ∧ (x >>> 8 &&& 0xf) = x / 256 % 16 ∧
    (x >>> 4 &&& 0xf) = x / 16 % 16 ∧ (x &&& 0xf) = x % 16 := by
  have h := Nat.and_pow_two_sub_one_eq_mod
  refine ⟨by simp [Nat.shiftRight_eq_div_pow], ?_, ?_, ?_⟩
  · have := h (x >>> 8) 4; simpa [Nat.shiftRight_eq_div_pow] using this
  · have := h (x >>> 4) 4; simpa [Nat.shiftRight_eq_div_pow] using this
  · have := h x 4; simpa using this

theorem parseHexLoop_appendHex (g : Nat) (hg : g < 65536) (rest : GoString)
    (hrest : ∀ acc off, parseHexLoop rest acc off = some (acc, off, rest)) :
    ∃ n, n ≠ 0 ∧ parseHexLoop (appendHex [] g ++ rest) 0 0 = some (g, n, rest) := by
  obtain ⟨b1, b2, b3, b4⟩ := hex_bits g
  unfold appendHex
  rw [b1, b2, b3, b4]
  by_cases h3 : g ≥ 0x1000
  · have h2 : g ≥ 0x100 := by omega
    have h1 : g ≥ 0x10 := by omega
    refine ⟨4, by omega, ?_⟩
    simp only [h3, h2, h1, if_true, List.nil_append, List.cons_append, List.singleton_append]
    rw [parseHexLoop_digit _ (by omega), parseHexLoop_digit _ (by omega), parseHexLoop_digit _ (by omega),
      parseHexLoop_digit _ (by omega), hrest]
    have e : ((( 0 * 16 + g / 4096) * 16 + g / 256 % 16) * 16 + g / 16 % 16) * 16 + g % 16 = g := by omega
    have e1 : ¬ (0 * 16 + g / 4096 > 0xFFFF) := by omega
    have e2 : ¬ ((0 * 16 + g / 4096) * 16 + g / 256 % 16 > 0xFFFF) := by omega
    have e3 : ¬ (((0 * 16 + g / 4096) * 16 + g / 256 % 16) * 16 + g / 16 % 16 > 0xFFFF) := by omega
    have e4 : ¬ ((((0 * 16 + g / 4096) * 16 + g / 256 % 16) * 16 + g / 16 % 16) * 16 + g % 16 > 0xFFFF) := by omega
    simp only [e1, e2, e3, e4, e, if_false]
    simp
    omega
  · by_cases h2 : g ≥ 0x100
    · have h1 : g ≥ 0x10 := by omega
      refine ⟨3, by omega, ?_⟩
      simp only [h3, h2, h1, if_true, if_false, List.nil_append, List.cons_append, List.singleton_append]
      rw [parseHexLoop_digit _ (by omega), parseHexLoop_digit _ (by omega), parseHexLoop_digit _ (by omega),
        hrest]
      have e : ((0 * 16 + g / 256 % 16) * 16 + g / 16 % 16) * 16 + g % 16 = g := by omega
      have e2 : ¬ (0 * 16 + g / 256 % 16 > 0xFFFF) := by omega
      have e3 : ¬ ((0 * 16 + g / 256 % 16) * 16 + g / 16 % 16 > 0xFFFF) := by omega
      have e4 : ¬ (((0 * 16 + g / 256 % 16) * 16 + g / 16 % 16) * 16 + g % 16 > 0xFFFF) := by omega
      simp only [e2, e3, e4, e, if_false]
      simp
      omega
    · by_cases h1 : g ≥ 0x10
      · refine ⟨2, by omega, ?_⟩
        simp only [h3, h2, h1, if_true, if_false, List.nil_append, List.cons_append, List.singleton_append]
        rw [parseHexLoop_digit _ (by omega), parseHexLoop_digit _ (by omega), hrest]
        have e : (0 * 16 + g / 16 % 16) * 16 + g % 16 = g := by omega
        have e3 : ¬ (0 * 16 + g / 16 % 16 > 0xFFFF) := by omega
        have e4 : ¬ ((0 * 16 + g / 16 % 16) * 16 + g % 16 > 0xFFFF) := by omega
        simp only [e3, e4, e, if_false]
        simp
        omega
      · refine ⟨1, by omega, ?_⟩
        simp only [h3, h2, h1, if_false, List.nil_append, List.cons_append, List.singleton_append]
        rw [parseHexLoop_digit _ (by omega), hrest]
        have e : 0 * 16 + g % 16 = g := by omega
        have e4 : ¬ (0 * 16 + g % 16 > 0xFFFF) := by omega
        simp only [e4, e, if_false]
        simp
        omega

theorem appendHex_chars (g : Nat) (hg : g < 65536) : ∀ c ∈ appendHex [] g, ∃ n, n < 16 ∧ c = digit n := by
  obtain ⟨b1, b2, b3, b4⟩ := hex_bits g
  have hsub : ∀ c ∈ appendHex [] g,
      c ∈ [digit (g / 4096), digit (g / 256 % 16), digit (g / 16 % 16), digit (g % 16)] := by
    unfold appendHex
    rw [b1, b2, b3, b4]
    intro c hc
    simp only [List.mem_cons, List.mem_singleton, List.not_mem_nil, or_false]
    split_ifs at hc <;> simp at hc <;> tauto
  intro c hc
  have := hsub c hc
  simp only [List.mem_cons, List.mem_singleton, List.not_mem_nil, or_false] at this
  rcases this with h | h | h | h
  · exact ⟨_, by omega, h⟩
  · exact ⟨_, by omega, h⟩
  · exact ⟨_, by omega, h⟩
  · exact ⟨_, by omega, h⟩

theorem appendHex_ne_nil (g : Nat) : appendHex [] g ≠ [] := by
  unfold appendHex
  split_ifs <;> simp

theorem appendHex_head (g : Nat) (hg : g < 65536) : ∃ n t, n < 16 ∧ appendHex [] g = digit n :: t := by
  cases h : appendHex [] g with
  | nil => exact absurd h (appendHex_ne_nil g)
  | cons c t =>
    obtain ⟨n, hn, rfl⟩ := appendHex_chars g hg c (by rw [h]; exact List.mem_cons_self _ _)
    exact ⟨n, t, hn, rfl⟩

theorem parseHexLoop_nil (acc off : Nat) : parseHexLoop [] acc off = some (acc, off, []) := rfl

theorem parseIPv6Loop_end (k : Nat) (g : Nat) (hg : g < 65536) (ip : List Byte) (e : Option Nat) :
    parseIPv6Loop (k + 1) (appendHex [] g) ip e = some ([], ip ++ [toByte (g >>> 8), toByte g], e) := by
  obtain ⟨n, hn, hp⟩ := parseHexLoop_appendHex g hg [] parseHexLoop_nil
  rw [List.append_nil] at hp
  simp [parseIPv6Loop, hp, hn]

theorem parseIPv6Loop_colon (k : Nat) (g : Nat) (hg : g < 65536) (ip : List Byte) (e : Option Nat)
    (s : GoString) (hs : s ≠ []) (hh : s.head? ≠ some ':') :
    parseIPv6Loop (k + 1) (appendHex [] g ++ ':' :: s) ip e =
      parseIPv6Loop k s (ip ++ [toByte (g >>> 8), toByte g]) e := by
  obtain ⟨n, hn, hp⟩ := parseHexLoop_appendHex g hg (':' :: s) (parseHexLoop_colon s)
  simp [parseIPv6Loop, hp, hn, hs, hh]

theorem parseIPv6Loop_ellipsis_end (k : Nat) (g : Nat) (hg : g < 65536) (ip : List Byte) :
    parseIPv6Loop (k + 1) (appendHex [] g ++ [':', ':']) ip none =
      some ([], ip ++ [toByte (g >>> 8), toByte g], some (ip.length + 2)) := by
  obtain ⟨n, hn, hp⟩ := parseHexLoop_appendHex g hg [':', ':'] (parseHexLoop_colon [':'])
  simp [parseIPv6Loop, hp, hn]

theorem parseIPv6Loop_ellipsis (k : Nat) (g : Nat) (hg : g < 65536) (ip : List Byte)
    (s : GoString) (hs : s ≠ []) :
    parseIPv6Loop (k + 1) (appendHex [] g ++ ':' :: ':' :: s) ip none =
      parseIPv6Loop k s (ip ++ [toByte (g >>> 8), toByte g]) (some (ip.length + 2)) := by
  obtain ⟨n, hn, hp⟩ := parseHexLoop_appendHex g hg (':' :: ':' :: s) (parseHexLoop_colon (':' :: s))
  simp [parseIPv6Loop, hp, hn, hs]

theorem appendTo6Loop_eq (ip : List Byte) (zs ze : Nat) (f : Nat) :
    ∀ i ret, appendTo6Loop ip zs ze f i ret = ret ++ appendTo6Loop ip zs ze f i [] := by
  induction f with
  | zero => intro i ret; simp [appendTo6Loop]
  | succ f ih =>
    intro i ret
    simp only [appendTo6Loop]
    split_ifs with h1 h2 h3 h4
    · simp
    · rw [ih, appendHex_eq, ih _ (appendHex _ _), appendHex_eq ([] ++ _)]
      simp
    · rw [ih, appendHex_eq, ih _ (appendHex _ _), appendHex_eq ([] ++ _)]
      simp
    · rw [ih, appendHex_eq, ih _ (appendHex _ _)]
      simp
    · simp


theorem v6u16_eq (ip : List Byte) (i : Nat) :
    v6u16 ip i = (idx ip (2 * i)).val * 256 + (idx ip (2 * i + 1)).val := by
  unfold v6u16
  have h := Nat.mul_add_lt_is_or (i := 8) (b := (idx ip (2 * i + 1)).val) (idx ip (2 * i + 1)).isLt
    (idx ip (2 * i)).val
  rw [Nat.shiftLeft_eq, ← Nat.mul_comm (2 ^ 8), ← h]

theorem v6u16_lt (ip : List Byte) (i : Nat) : v6u16 ip i < 65536 := by
  rw [v6u16_eq]
  have h1 := (idx ip (2 * i)).isLt
  have h2 := (idx ip (2 * i + 1)).isLt
  omega

theorem toByte_v6u16 (ip : List Byte) (i : Nat) :
    toByte (v6u16 ip i >>> 8) = idx ip (2 * i) ∧ toByte (v6u16 ip i) = idx ip (2 * i + 1) := by
  rw [v6u16_eq]
  have h1 := (idx ip (2 * i)).isLt
  have h2 := (idx ip (2 * i + 1)).isLt
  constructor
  · apply Fin.ext
    simp only [toByte, Nat.shiftRight_eq_div_pow]
    omega
  · apply Fin.ext
    simp only [toByte]
    omega

theorem v6u16_eq_zero (ip : List Byte) (i : Nat) (h : v6u16 ip i = 0) :
    idx ip (2 * i) = 0 ∧ idx ip (2 * i + 1) = 0 := by
  rw [v6u16_eq] at h
  constructor <;> apply Fin.ext <;> simp <;> omega

theorem drop_two (ip : List Byte) (i : Nat) (h : 2 * i + 1 < ip.length) :
    ip.drop (2 * i) = idx ip (2 * i) :: idx ip (2 * i + 1) :: ip.drop (2 * (i + 1)) := by
  have h0 : 2 * i < ip.length := by omega
  rw [List.drop_eq_getElem_cons h0, List.drop_eq_getElem_cons (by omega : 2 * i + 1 < ip.length)]
  simp only [idx, List.getD_eq_getElem?_getD, List.getElem?_eq_getElem h0, List.getElem?_eq_getElem h,
    Option.getD_some]
  rfl

theorem appendTo6Loop_plain (ip : List Byte) (zs ze f i : Nat) (hi : i < 8) (hz : i ≠ zs) :
    appendTo6Loop ip zs ze (f + 1) i [] =
      (if i > 0 then [':'] else []) ++ (appendHex [] (v6u16 ip i) ++ appendTo6Loop ip zs ze f (i + 1) []) := by
  simp only [appendTo6Loop, hi, hz, if_true, if_false]
  rw [appendTo6Loop_eq, appendHex_eq]
  simp

theorem appendTo6Loop_ellipsis (ip : List Byte) (zs ze f : Nat) (hi : zs < 8) :
    appendTo6Loop ip zs ze (f + 1) zs [] =
      ':' :: ':' :: (if ze ≥ 8 then [] else appendHex [] (v6u16 ip ze) ++ appendTo6Loop ip zs ze f (ze + 1) []) := by
  simp only [appendTo6Loop, hi, if_true]
  split_ifs with h
  · simp
  · rw [appendTo6Loop_eq, appendHex_eq]
    simp

theorem appendTo6Loop_done (ip : List Byte) (zs ze f i : Nat) (hi : 8 ≤ i) :
    appendTo6Loop ip zs ze f i [] = [] := by
  cases f with
  | zero => rfl
  | succ f => simp [appendTo6Loop, Nat.not_lt.mpr hi]

theorem hex_cons (ip : List Byte) (i : Nat) (t : GoString) :
    appendHex [] (v6u16 ip i) ++ t ≠ [] ∧ (appendHex [] (v6u16 ip i) ++ t).head? ≠ some ':' := by
  obtain ⟨n, r, hn, e⟩ := appendHex_head (v6u16 ip i) (v6u16_lt ip i)
  rw [e]
  have := (digit_hex ⟨n, hn⟩).2.2.1
  simp only at this
  simp [this]

theorem parseIPv6Loop_tail (ip : List Byte) (hlen : ip.length = 16) (zs ze : Nat) :
    ∀ n i f k acc e, i + n + 1 = 8 → (zs ≤ i ∨ 8 ≤ zs) → 8 ≤ f + (i + 1) → n + 1 ≤ k →
      parseIPv6Loop k (appendHex [] (v6u16 ip i) ++ appendTo6Loop ip zs ze f (i + 1) []) acc e =
        some ([], acc ++ ip.drop (2 * i), e) := by
  intro n
  induction n with
  | zero =>
    intro i f k acc e hi hz hf hk
    obtain ⟨k, rfl⟩ : ∃ k', k = k' + 1 := ⟨k - 1, by omega⟩
    have h7 : i = 7 := by omega
    subst h7
    rw [appendTo6Loop_done _ _ _ _ _ (by omega), List.append_nil,
      parseIPv6Loop_end _ _ (v6u16_lt ip 7), (toByte_v6u16 ip 7).1, (toByte_v6u16 ip 7).2,
      drop_two ip 7 (by omega)]
    have : ip.drop (2 * (7 + 1)) = [] := List.drop_eq_nil_of_le (by omega)
    rw [this]
  | succ n ih =>
    intro i f k acc e hi hz hf hk
    obtain ⟨k, rfl⟩ : ∃ k', k = k' + 1 := ⟨k - 1, by omega⟩
    obtain ⟨f, rfl⟩ : ∃ f', f = f' + 1 := ⟨f - 1, by omega⟩
    rw [appendTo6Loop_plain ip zs ze f (i + 1) (by omega) (by omega)]
    simp only [show i + 1 > 0 by omega, if_true, List.singleton_append]
    obtain ⟨hne, hhead⟩ := hex_cons ip (i + 1) (appendTo6Loop ip zs ze f (i + 1 + 1) [])
    rw [parseIPv6Loop_colon _ _ (v6u16_lt ip i) _ _ _ hne hhead,
      ih (i + 1) f k _ e (by omega) (by omega) (by omega) (by omega),
      (toByte_v6u16 ip i).1, (toByte_v6u16 ip i).2, drop_two ip i (by omega)]
    simp

theorem idx_take (ip : List Byte) (m j : Nat) (h : j < m) : idx (ip.take m) j = idx ip j := by
  simp [idx, List.getD_eq_getElem?_getD, List.getElem?_take, h]

theorem take_drop_two (ip : List Byte) (hlen : ip.length = 16) (zs i : Nat) (hi : i < zs) (hzs : zs ≤ 8) :
    (ip.take (2 * zs)).drop (2 * i) =
      idx ip (2 * i) :: idx ip (2 * i + 1) :: (ip.take (2 * zs)).drop (2 * (i + 1)) := by
  rw [drop_two (ip.take (2 * zs)) i (by simp [hlen]; omega), idx_take _ _ _ (by omega),
    idx_take _ _ _ (by omega)]

theorem parseIPv6Loop_head (ip : List Byte) (hlen : ip.length = 16) (zs ze : Nat) (hzs : zs < 8)
    (hze : zs < ze) (hze8 : ze ≤ 8) :
    ∀ n i f k acc, i + n + 1 = zs → 8 ≤ f + (i + 1) → 8 ≤ k + i →
      parseIPv6Loop k (appendHex [] (v6u16 ip i) ++ appendTo6Loop ip zs ze f (i + 1) []) acc none =
        some ([], acc ++ ((ip.take (2 * zs)).drop (2 * i) ++ ip.drop (2 * ze)),
          some (acc.length + 2 * (zs - i))) := by
  intro n
  induction n with
  | zero =>
    intro i f k acc hi hf hk
    obtain ⟨k, rfl⟩ : ∃ k', k = k' + 1 := ⟨k - 1, by omega⟩
    obtain ⟨f, rfl⟩ : ∃ f', f = f' + 1 := ⟨f - 1, by omega⟩
    have hz : i + 1 = zs := by omega
    rw [hz, appendTo6Loop_ellipsis ip zs ze f hzs, take_drop_two ip hlen zs i (by omega) (by omega)]
    have hnil : (ip.take (2 * zs)).drop (2 * (i + 1)) = [] :=
      List.drop_eq_nil_of_le (by simp [hlen]; omega)
    have hsub : zs - i = 1 := by omega
    rw [hnil, hsub]
    by_cases h8 : ze ≥ 8
    · have hd : ip.drop (2 * ze) = [] := List.drop_eq_nil_of_le (by omega)
      simp only [h8, if_true, hd]
      rw [parseIPv6Loop_ellipsis_end _ _ (v6u16_lt ip i), (toByte_v6u16 ip i).1, (toByte_v6u16 ip i).2]
      simp
    · simp only [h8, if_false]
      obtain ⟨hne, -⟩ := hex_cons ip ze (appendTo6Loop ip zs ze f (ze + 1) [])
      rw [parseIPv6Loop_ellipsis _ _ (v6u16_lt ip i) _ _ hne,
        parseIPv6Loop_tail ip hlen zs ze (7 - ze) ze f k _ _ (by omega) (by omega) (by omega) (by omega),
        (toByte_v6u16 ip i).1, (toByte_v6u16 ip i).2]
      simp
  | succ n ih =>
    intro i f k acc hi hf hk
    obtain ⟨k, rfl⟩ : ∃ k', k = k' + 1 := ⟨k - 1, by omega⟩
    obtain ⟨f, rfl⟩ : ∃ f', f = f' + 1 := ⟨f - 1, by omega⟩
    rw [appendTo6Loop_plain ip zs ze f (i + 1) (by omega) (by omega)]
    simp only [show i + 1 > 0 by omega, if_true, List.singleton_append]
    obtain ⟨hne, hhead⟩ := hex_cons ip (i + 1) (appendTo6Loop ip zs ze f (i + 1 + 1) [])
    rw [parseIPv6Loop_colon _ _ (v6u16_lt ip i) _ _ _ hne hhead,
      ih (i + 1) f k _ (by omega) (by omega) (by omega),
      (toByte_v6u16 ip i).1, (toByte_v6u16 ip i).2, take_drop_two ip hlen zs i (by omega) (by omega)]
    have : zs - i = (zs - (i + 1)) + 1 := by omega
    rw [this]
    simp
    omega

theorem zeroRunEnd_spec (ip : List Byte) :
    ∀ fuel j, j ≤ zeroRunEnd ip fuel j ∧ (j ≤ 8 → zeroRunEnd ip fuel j ≤ 8) ∧
      ∀ m, j ≤ m → m < zeroRunEnd ip fuel j → v6u16 ip m = 0 := by
  intro fuel
  induction fuel with
  | zero =>
    intro j
    simp only [zeroRunEnd]
    exact ⟨le_refl _, fun h8 => h8, fun m hm1 hm2 => by omega⟩
  | succ fuel ih =>
    intro j
    simp only [zeroRunEnd]
    split_ifs with h
    · obtain ⟨h1, h2, h3⟩ := ih (j + 1)
      refine ⟨by omega, fun _ => h2 (by omega), fun m hm1 hm2 => ?_⟩
      by_cases hmj : m = j
      · rw [hmj]; exact h.2
      · exact h3 m (by omega) hm2
    · exact ⟨le_refl _, fun h8 => h8, fun m hm1 hm2 => by omega⟩

theorem findZeroRun_spec (ip : List Byte) :
    ∀ k i z, i + k ≤ 8 →
      (z = (255, 255) ∨ (z.1 + 2 ≤ z.2 ∧ z.2 ≤ 8 ∧ ∀ m, z.1 ≤ m → m < z.2 → v6u16 ip m = 0)) →
      (findZeroRun ip k i z = (255, 255) ∨
        ((findZeroRun ip k i z).1 + 2 ≤ (findZeroRun ip k i z).2 ∧ (findZeroRun ip k i z).2 ≤ 8 ∧
          ∀ m, (findZeroRun ip k i z).1 ≤ m → m < (findZeroRun ip k i z).2 → v6u16 ip m = 0)) := by
  intro k
  induction k with
  | zero => intro i z _ hz; simpa [findZeroRun] using hz
  | succ k ih =>
    intro i z hik hz
    obtain ⟨zs, ze⟩ := z
    simp only [findZeroRun]
    obtain ⟨h1, h2, h3⟩ := zeroRunEnd_spec ip 8 i
    split_ifs with h
    · exact ih (i + 1) _ (by omega) (Or.inr ⟨by simp only; omega, h2 (by omega), h3⟩)
    · exact ih (i + 1) _ (by omega) hz

theorem drop_zeros (ip : List Byte) (hlen : ip.length = 16) :
    ∀ n zs, (∀ m, zs ≤ m → m < zs + n → v6u16 ip m = 0) → zs + n ≤ 8 →
      ip.drop (2 * zs) = List.replicate (2 * n) 0 ++ ip.drop (2 * (zs + n)) := by
  intro n
  induction n with
  | zero => intro zs _ _; simp
  | succ n ih =>
    intro zs hz h8
    obtain ⟨z1, z2⟩ := v6u16_eq_zero ip zs (hz zs (le_refl _) (by omega))
    rw [drop_two ip zs (by omega), z1, z2, ih (zs + 1) (fun m hm1 hm2 => hz m (by omega) (by omega)) (by omega)]
    have e1 : 2 * (n + 1) = 2 * n + 1 + 1 := by omega
    have e2 : zs + 1 + n = zs + (n + 1) := by omega
    rw [e1, e2, List.replicate_succ, List.replicate_succ]
    simp

theorem appendTo6Loop_chars (ip : List Byte) (zs ze : Nat) :
    ∀ f i, ∀ c ∈ appendTo6Loop ip zs ze f i [], c = ':' ∨ ∃ n, n < 16 ∧ c = digit n := by
  intro f
  induction f with
  | zero => intro i c hc; simp [appendTo6Loop] at hc
  | succ f ih =>
    intro i c hc
    by_cases h8 : i < 8
    · by_cases hz : i = zs
      · subst hz
        rw [appendTo6Loop_ellipsis ip i ze f h8] at hc
        simp only [List.mem_cons] at hc
        rcases hc with h | h | h
        · exact Or.inl h
        · exact Or.inl h
        · split_ifs at h
          · simp at h
          · rcases List.mem_append.mp h with h | h
            · exact Or.inr (appendHex_chars _ (v6u16_lt ip ze) c h)
            · exact ih _ c h
      · rw [appendTo6Loop_plain ip zs ze f i h8 hz] at hc
        rcases List.mem_append.mp hc with h | h
        · split_ifs at h
          · simp only [List.mem_singleton] at h; exact Or.inl h
          · simp at h
        · rcases List.mem_append.mp h with h | h
          · exact Or.inr (appendHex_chars _ (v6u16_lt ip i) c h)
          · exact ih _ c h
    · rw [appendTo6Loop_done ip zs ze (f + 1) i (by omega)] at hc
      simp at hc

theorem digit_ne_percent (n : Nat) (hn : n < 16) : digit n ≠ '%' := (digit_hex ⟨n, hn⟩).2.2.2.1

theorem parseIPv6_appendTo6 (ip : List Byte) (hlen : ip.length = 16) :
    parseIPv6 (appendTo6 [] ip) = some (ip, []) := by
  unfold appendTo6
  have hinv := findZeroRun_spec ip 8 0 (255, 255) (by omega) (Or.inl rfl)
  generalize findZeroRun ip 8 0 (255, 255) = z at hinv
  obtain ⟨zs, ze⟩ := z
  simp only at hinv ⊢
  have hpct : IndexByteString (appendTo6Loop ip zs ze 8 0 []) '%' = none := by
    rw [IndexByteString_eq_none]
    intro hm
    rcases appendTo6Loop_chars ip zs ze 8 0 _ hm with h | ⟨n, hn, h⟩
    · exact absurd h (by decide)
    · exact digit_ne_percent n hn h.symm
  unfold parseIPv6
  rw [hpct]
  simp only
  rcases hinv with hz | ⟨h1, h2, h3⟩
  · simp only [Prod.mk.injEq] at hz
    obtain ⟨rfl, rfl⟩ := hz
    have htext := appendTo6Loop_plain ip 255 255 7 0 (by omega) (by omega)
    simp only [gt_iff_lt, lt_self_iff_false, if_false, List.nil_append] at htext
    rw [htext]
    obtain ⟨hne, hhead⟩ := hex_cons ip 0 (appendTo6Loop ip 255 255 7 (0 + 1) [])
    have hloop := parseIPv6Loop_tail ip hlen 255 255 7 0 7 8 [] none (by omega) (by omega) (by omega) (by omega)
    simp only [hhead, false_and, and_false, decide_False, Bool.false_eq_true, if_false, hloop]
    simp [hlen]
  · have hz := drop_zeros ip hlen (ze - zs) zs (fun m hm1 hm2 => h3 m hm1 (by omega)) (by omega)
    have hze : zs + (ze - zs) = ze := by omega
    rw [hze] at hz
    by_cases h0 : zs = 0
    · subst h0
      rw [appendTo6Loop_ellipsis ip 0 ze 7 (by omega)]
      by_cases h8 : ze ≥ 8
      · have hd : ip.drop (2 * ze) = [] := List.drop_eq_nil_of_le (by omega)
        have h16 : 2 * (ze - 0) = 16 := by omega
        rw [hd, h16] at hz
        simp only [h8, if_true]
        simp only [Nat.mul_zero, List.drop_zero, List.append_nil] at hz
        rw [hz]
        decide
      · simp only [h8, if_false]
        obtain ⟨hne, hhead⟩ := hex_cons ip ze (appendTo6Loop ip 0 ze 7 (ze + 1) [])
        have hloop := parseIPv6Loop_tail ip hlen 0 ze (7 - ze) ze 7 8 [] (some 0)
          (by omega) (by omega) (by omega) (by omega)
        simp only [List.length_cons, List.head?_cons, List.drop_succ_cons, List.drop_zero, hne, and_false,
          if_false, true_and, and_true, decide_True, ge_iff_le, Nat.le_add_left, if_true, hloop]
        have hlen' : (ip.drop (2 * ze)).length = 16 - 2 * ze := by simp [hlen]
        simp only [Nat.mul_zero, List.drop_zero, Nat.sub_zero] at hz
        simp only [List.nil_append, List.length_nil, ne_eq, not_true_eq_false, if_false, hlen',
          show 16 - 2 * ze < 16 by omega, if_true, List.take_zero,
          show 16 - (16 - 2 * ze) = 2 * ze by omega, ← hz]
    · have htext := appendTo6Loop_plain ip zs ze 7 0 (by omega) (Ne.symm h0)
      simp only [gt_iff_lt, lt_self_iff_false, if_false, List.nil_append] at htext
      rw [htext]
      obtain ⟨hne, hhead⟩ := hex_cons ip 0 (appendTo6Loop ip zs ze 7 (0 + 1) [])
      have hloop := parseIPv6Loop_head ip hlen zs ze (by omega) (by omega) h2 (zs - 1) 0 7 8 []
        (by omega) (by omega) (by omega)
      simp only [hhead, false_and, and_false, decide_False, Bool.false_eq_true, if_false, hloop]
      have hlen1 : (ip.take (2 * zs)).length = 2 * zs := by simp [hlen]; omega
      have hlen2 : (ip.drop (2 * ze)).length = 16 - 2 * ze := by simp [hlen]
      simp only [List.nil_append, List.length_nil, ne_eq, not_true_eq_false, if_false, Nat.mul_zero,
        List.drop_zero, List.length_append, hlen1, hlen2, Nat.sub_zero, Nat.zero_add,
        show 2 * zs + (16 - 2 * ze) < 16 by omega, if_true]
      rw [List.take_left' hlen1, List.drop_left' hlen1,
        show 16 - (2 * zs + (16 - 2 * ze)) = 2 * (ze - zs) by omega, List.append_assoc, ← hz,
        List.take_append_drop]

/-! ## Lemmas: `ParseIP` reads back `IPString` -/

theorem firstSep_none (s : GoString) (h : ∀ c ∈ s, c ≠ '.' ∧ c ≠ ':' ∧ c ≠ '%') : firstSep s = none := by
  induction s with
  | nil => rfl
  | cons x s ih =>
    obtain ⟨h1, h2, h3⟩ := h x (List.mem_cons_self _ _)
    simp [firstSep, h1, h2, h3, ih (fun c hc => h c (List.mem_cons_of_mem _ hc))]

theorem firstSep_append (a b : GoString) (c : Char) (hc : c = '.' ∨ c = ':' ∨ c = '%')
    (h : ∀ x ∈ a, x ≠ '.' ∧ x ≠ ':' ∧ x ≠ '%') : firstSep (a ++ c :: b) = some c := by
  induction a with
  | nil => simp [firstSep, hc]
  | cons x a ih =>
    obtain ⟨h1, h2, h3⟩ := h x (List.mem_cons_self _ _)
    simp [firstSep, h1, h2, h3, ih (fun c hc => h c (List.mem_cons_of_mem _ hc))]

theorem firstSep_colon (s : GoString) (h : ∀ c ∈ s, c = ':' ∨ (c ≠ '.' ∧ c ≠ ':' ∧ c ≠ '%'))
    (hm : ':' ∈ s) : firstSep s = some ':' := by
  induction s with
  | nil => simp at hm
  | cons x s ih =>
    rcases h x (List.mem_cons_self _ _) with rfl | ⟨h1, h2, h3⟩
    · simp [firstSep]
    · have hm' : ':' ∈ s := by
        rcases List.mem_cons.mp hm with e | e
        · exact absurd e.symm h2
        · exact e
      simp [firstSep, h1, h2, h3, ih (fun c hc => h c (List.mem_cons_of_mem _ hc)) hm']

theorem appendDecimal_chars (x : Byte) : ∀ c ∈ appendDecimal [] x, ∃ n, n < 10 ∧ c = digit n := by
  have hx := x.isLt
  intro c hc
  have hsub : c ∈ [digit (x.val / 100), digit (x.val / 10 % 10), digit (x.val % 10)] := by
    unfold appendDecimal at hc
    simp only [List.mem_cons, List.mem_singleton, List.not_mem_nil, or_false]
    split_ifs at hc <;> simp at hc <;> tauto
  simp only [List.mem_cons, List.mem_singleton, List.not_mem_nil, or_false] at hsub
  rcases hsub with h | h | h
  · exact ⟨_, by omega, h⟩
  · exact ⟨_, by omega, h⟩
  · exact ⟨_, by omega, h⟩

theorem appendDecimal_nosep (x : Byte) :
    ∀ c ∈ appendDecimal [] x, c ≠ '.' ∧ c ≠ ':' ∧ c ≠ '%' ∧ c ≠ '[' ∧ c ≠ ']' := by
  intro c hc
  obtain ⟨n, hn, rfl⟩ := appendDecimal_chars x c hc
  exact (digit_dec ⟨n, hn⟩).2.2

theorem appendTo4_chars (a b c d : Byte) :
    ∀ x ∈ appendTo4 [] [a, b, c, d], x ≠ ':' ∧ x ≠ '%' ∧ x ≠ '[' ∧ x ≠ ']' := by
  intro x hx
  rw [appendTo4_eq] at hx
  simp only [List.mem_append, List.mem_cons] at hx
  have hdot : x = '.' → x ≠ ':' ∧ x ≠ '%' ∧ x ≠ '[' ∧ x ≠ ']' := by rintro rfl; decide
  have hdec : ∀ y : Byte, x ∈ appendDecimal [] y → x ≠ ':' ∧ x ≠ '%' ∧ x ≠ '[' ∧ x ≠ ']' :=
    fun y hy => (appendDecimal_nosep y x hy).2
  rcases hx with h | h | h | h | h | h | h
  · exact hdec _ h
  · exact hdot h
  · exact hdec _ h
  · exact hdot h
  · exact hdec _ h
  · exact hdot h
  · exact hdec _ h

theorem ParseIP_appendTo4 (a b c d : Byte) : ParseIP (appendTo4 [] [a, b, c, d]) = some (IPv4 a b c d) := by
  have hsep : firstSep (appendTo4 [] [a, b, c, d]) = some '.' := by
    rw [appendTo4_eq]
    exact firstSep_append _ _ '.' (Or.inl rfl)
      (fun x hx => ⟨(appendDecimal_nosep a x hx).1, (appendDecimal_nosep a x hx).2.1,
        (appendDecimal_nosep a x hx).2.2.1⟩)
  simp [ParseIP, ParseAddr, hsep, parseIPv4, parseIPv4Fields_appendTo4, As16, idx]

theorem appendTo6_chars (ip : List Byte) : ∀ c ∈ appendTo6 [] ip, c = ':' ∨ ∃ n, n < 16 ∧ c = digit n := by
  unfold appendTo6
  exact appendTo6Loop_chars ip _ _ 8 0

theorem appendTo6Loop_colon_mem (ip : List Byte) (zs ze f i : Nat) (hi : 0 < i) (h8 : i < 8) :
    ':' ∈ appendTo6Loop ip zs ze (f + 1) i [] := by
  by_cases hz : i = zs
  · subst hz
    rw [appendTo6Loop_ellipsis ip i ze f h8]
    exact List.mem_cons_self _ _
  · rw [appendTo6Loop_plain ip zs ze f i h8 hz]
    simp [hi]

theorem appendTo6_colon_mem (ip : List Byte) : ':' ∈ appendTo6 [] ip := by
  unfold appendTo6
  generalize findZeroRun ip 8 0 (255, 255) = z
  obtain ⟨zs, ze⟩ := z
  simp only
  by_cases hz : 0 = zs
  · subst hz
    rw [appendTo6Loop_ellipsis ip 0 ze 7 (by omega)]
    exact List.mem_cons_self _ _
  · rw [appendTo6Loop_plain ip zs ze 7 0 (by omega) hz]
    have := appendTo6Loop_colon_mem ip zs ze 6 1 (by omega) (by omega)
    simp [this]

theorem appendTo6_nosep (ip : List Byte) :
    ∀ c ∈ appendTo6 [] ip, c = ':' ∨ (c ≠ '.' ∧ c ≠ ':' ∧ c ≠ '%' ∧ c ≠ '[' ∧ c ≠ ']') := by
  intro c hc
  rcases appendTo6_chars ip c hc with h | ⟨n, hn, rfl⟩
  · exact Or.inl h
  · exact Or.inr (digit_hex ⟨n, hn⟩).2

theorem ParseIP_appendTo6 (ip : List Byte) (hlen : ip.length = 16) :
    ParseIP (appendTo6 [] ip) = some ip := by
  have hsep : firstSep (appendTo6 [] ip) = some ':' :=
    firstSep_colon _ (fun c hc => (appendTo6_nosep ip c hc).imp id (fun h => ⟨h.1, h.2.1, h.2.2.1⟩))
      (appendTo6_colon_mem ip)
  simp [ParseIP, ParseAddr, hsep, parseIPv6_appendTo6 ip hlen, As16, hlen]

theorem hexString_chars (b : List Byte) : ∀ c ∈ hexString b, ∃ n, n < 16 ∧ c = digit n := by
  induction b with
  | nil => intro c hc; simp [hexString] at hc
  | cons x b ih =>
    intro c hc
    have hx := x.isLt
    obtain ⟨-, -, -, b4⟩ := hex_bits x.val
    simp only [hexString, List.mem_cons] at hc
    rcases hc with h | h | h
    · exact ⟨_, by rw [Nat.shiftRight_eq_div_pow]; omega, h⟩
    · exact ⟨_, by rw [b4]; omega, h⟩
    · exact ih c h

theorem IPString_other (ip : IP) (h4 : ip.length ≠ 4) (h16 : ip.length ≠ 16) :
    ∀ c ∈ IPString ip, c ≠ '.' ∧ c ≠ ':' ∧ c ≠ '%' ∧ c ≠ '[' ∧ c ≠ ']' := by
  intro c hc
  unfold IPString at hc
  by_cases h0 : ip.length = 0
  · simp only [h0, if_true] at hc
    revert c
    decide
  · simp only [h0, if_false, IPv4len, IPv6len, ne_eq, h4, h16, not_false_eq_true, and_self, if_true,
      List.mem_cons] at hc
    rcases hc with rfl | h
    · decide
    · obtain ⟨n, hn, rfl⟩ := hexString_chars ip c h
      exact (digit_hex ⟨n, hn⟩).2

theorem To4_none_of_length {ip : IP} (h4 : ip.length ≠ 4) (h16 : ip.length ≠ 16) : To4 ip = none := by
  simp [To4, IPv4len, IPv6len, h4, h16]

theorem To4_some_length {ip v : IP} (h : To4 ip = some v) : ip.length = 4 ∨ ip.length = 16 := by
  by_contra hn
  rw [not_or] at hn
  rw [To4_none_of_length hn.1 hn.2] at h
  cases h

theorem IPString_v4 {ip : IP} {a b c d : Byte} (h : To4 ip = some [a, b, c, d]) :
    IPString ip = appendTo4 [] [a, b, c, d] := by
  have hl := To4_some_length h
  have h0 : ip.length ≠ 0 := by omega
  have h1 : ¬ (ip.length ≠ IPv4len ∧ ip.length ≠ IPv6len) := by simp only [IPv4len, IPv6len]; omega
  simp only [IPString, h0, h1, if_false, h]

theorem IPString_v6 {ip : IP} (hlen : ip.length = 16) (h : To4 ip = none) :
    IPString ip = appendTo6 [] ip := by
  simp [IPString, hlen, IPv4len, IPv6len, h]

theorem SplitHostPort_JoinHostPort (h p : GoString) (h2 : '[' ∉ h) (h3 : ']' ∉ h)
    (p1 : ':' ∉ p) (p2 : '[' ∉ p) (p3 : ']' ∉ p) :
    SplitHostPort (JoinHostPort h p) = (h, p, none) := by
  unfold JoinHostPort
  by_cases hc : ':' ∈ h
  · have := (IndexByteString_isSome h ':').mpr hc
    simp only [this, if_true]
    have e : ['['] ++ h ++ [']', ':'] ++ p = '[' :: (h ++ ']' :: ':' :: p) := by simp
    rw [e]
    exact SplitHostPort_join_bracket h p h2 h3 p1 p2 p3
  · have : ¬ (IndexByteString h ':').isSome = true := fun hh => hc ((IndexByteString_isSome h ':').mp hh)
    simp only [this, if_false]
    have e : h ++ [':'] ++ p = h ++ ':' :: p := by simp
    rw [e]
    exact SplitHostPort_join_plain h p hc h2 h3 p1 p2 p3

theorem IPString_brackets (ip : IP) : '[' ∉ IPString ip ∧ ']' ∉ IPString ip := by
  by_cases h4 : ip.length = 4
  · obtain ⟨a, b, c, d, hv⟩ : ∃ a b c d, To4 ip = some [a, b, c, d] := by
      match ip, h4 with
      | [a, b, c, d], _ => exact ⟨a, b, c, d, To4_four a b c d⟩
    rw [IPString_v4 hv]
    exact ⟨fun hm => (appendTo4_chars a b c d _ hm).2.2.1 rfl,
      fun hm => (appendTo4_chars a b c d _ hm).2.2.2 rfl⟩
  · by_cases h16 : ip.length = 16
    · cases hv : To4 ip with
      | some v =>
        obtain ⟨a, b, c, d, rfl⟩ := To4_exists hv
        rw [IPString_v4 hv]
        exact ⟨fun hm => (appendTo4_chars a b c d _ hm).2.2.1 rfl,
          fun hm => (appendTo4_chars a b c d _ hm).2.2.2 rfl⟩
      | none =>
        rw [IPString_v6 h16 hv]
        constructor
        · intro hm
          rcases appendTo6_nosep ip _ hm with h | h
          · exact absurd h (by decide)
          · exact h.2.2.2.1 rfl
        · intro hm
          rcases appendTo6_nosep ip _ hm with h | h
          · exact absurd h (by decide)
          · exact h.2.2.2.2 rfl
    · exact ⟨fun hm => (IPString_other ip h4 h16 _ hm).2.2.2.1 rfl,
        fun hm => (IPString_other ip h4 h16 _ hm).2.2.2.2 rfl⟩

theorem ParseIP_IPString_v4 {ip : IP} {a b c d : Byte} (h : To4 ip = some [a, b, c, d]) :
    ParseIP (IPString ip) = some (IPv4 a b c d) := by
  rw [IPString_v4 h, ParseIP_appendTo4]

theorem ParseIP_IPString_v6 {ip : IP} (hlen : ip.length = 16) (h : To4 ip = none) :
    ParseIP (IPString ip) = some ip := by
  rw [IPString_v6 hlen h, ParseIP_appendTo6 ip hlen]

theorem ParseIP_IPString_other {ip : IP} (h4 : ip.length ≠ 4) (h16 : ip.length ≠ 16) :
    ParseIP (IPString ip) = none := by
  have := firstSep_none (IPString ip)
    (fun c hc => ⟨(IPString_other ip h4 h16 c hc).1, (IPString_other ip h4 h16 c hc).2.1,
      (IPString_other ip h4 h16 c hc).2.2.1⟩)
  simp [ParseIP, ParseAddr, this]

/-! ## Lemmas: the strings that `safeAddr` returns -/

theorem safeAddr_ok_cases {w : World} {hostport s : GoString} {tr tr' : Trace}
    (h : safeAddr w hostport tr = .ok ((s, none), tr')) :
    s = [] ∨ ∃ ip0 port0, ':' ∉ port0 ∧ '[' ∉ port0 ∧ ']' ∉ port0 ∧
      isIPv4AndBad ip0 = .ok false ∧ s = JoinHostPort (IPString ip0) port0 := by
  unfold safeAddr at h
  rcases hs : SplitHostPort hostport with ⟨host, port, _ | err⟩
  · obtain ⟨p1, p2, p3⟩ := SplitHostPort_port hs
    simp only [hs] at h
    cases hp : ParseIP host with
    | some ip =>
      simp only [hp] at h
      obtain ⟨b, hb⟩ := isIPv4AndBad_total ip
      cases b
      · simp only [hb, Except.ok.injEq, Prod.mk.injEq, and_true] at h
        exact Or.inr ⟨ip, port, p1, p2, p3, hb, h.1.symm⟩
      · simp [hb] at h
    | none =>
      simp only [hp] at h
      by_cases hh : isBadHost host = true
      · simp [hh] at h
      · simp only [hh, Bool.false_eq_true, if_false] at h
        split_ifs at h with hc
        · simp only [Except.ok.injEq, Prod.mk.injEq] at h
          exact Or.inl h.1.1.symm
        · obtain ⟨r, hr⟩ := firstBadIP_total (w.LookupIP tr host).1
          cases r with
          | some bad => simp [hr] at h
          | none =>
            simp only [hr, Except.ok.injEq, Prod.mk.injEq, and_true] at h
            have hne : (w.LookupIP tr host).1 ≠ [] := by
              intro he
              apply hc
              right
              simp [he]
            have hmem : (w.LookupIP tr host).1.headD [] ∈ (w.LookupIP tr host).1 := by
              cases hl : (w.LookupIP tr host).1 with
              | nil => exact absurd hl hne
              | cons x xs => simp
            exact Or.inr ⟨_, port, p1, p2, p3, firstBadIP_none hr _ hmem, h.1.symm⟩
  · simp [hs] at h

theorem vetted_text {ip0 : IP} {port0 host port : GoString} {ip : IP}
    (p1 : ':' ∉ port0) (p2 : '[' ∉ port0) (p3 : ']' ∉ port0) (hv : isIPv4AndBad ip0 = .ok false)
    (hs : SplitHostPort (JoinHostPort (IPString ip0) port0) = (host, port, none))
    (hp : ParseIP host = some ip) (h4 : To4 ip ≠ none) : isBadIPv4 ip = .ok false := by
  rw [SplitHostPort_JoinHostPort _ _ (IPString_brackets ip0).1 (IPString_brackets ip0).2 p1 p2 p3] at hs
  simp only [Prod.mk.injEq, and_true] at hs
  obtain ⟨rfl, rfl⟩ := hs
  cases hv4 : To4 ip0 with
  | some v =>
    obtain ⟨a, b, c, d, rfl⟩ := To4_exists hv4
    rw [ParseIP_IPString_v4 hv4] at hp
    simp only [Option.some.injEq] at hp
    subst hp
    have hbad : isBadIPv4 ip0 = .ok false := by
      simpa [isIPv4AndBad, hv4] using hv
    rw [isBadIPv4_of_To4 hv4] at hbad
    rw [isBadIPv4_of_To4 (To4_IPv4 a b c d)]
    exact hbad
  | none =>
    by_cases h16 : ip0.length = 16
    · rw [ParseIP_IPString_v6 h16 hv4] at hp
      simp only [Option.some.injEq] at hp
      subst hp
      exact absurd hv4 h4
    · have h4' : ip0.length ≠ 4 := by
        intro h
        simp [To4, IPv4len, h] at hv4
      rw [ParseIP_IPString_other h4' h16] at hp
      cases hp

theorem isBadIPv4_false_parts {ip : IP} (h : isBadIPv4 ip = .ok false) :
    Equal ip IPv4bcast = false ∧ IsGlobalUnicast ip = true ∧ Contains netPrivateClassA ip = false ∧
      Contains netPrivateClassB ip = false ∧ Contains netPrivateClassC ip = false ∧
      Contains netTestNet ip = false ∧ Contains net6To4Relay ip = false := by
  unfold isBadIPv4 at h
  split_ifs at h with h1 h2
  · simp at h
  · simpa [and_assoc] using h2

theorem SplitHostPort_nil : SplitHostPort [] = ([], [], some (Error.addr "missing port in address".toList [])) := by
  decide

/-! ## The properties of the specification -/

/-- C1: whatever the input and whatever the resolver answers, when `safeAddr` returns a
string `s` without error and `s` splits into a host and a port whose host is the text of an
IPv4 address (`ParseIP` reads it and `To4` is not `nil`), `isBadIPv4` is false for that
address: it is not the broadcast address, it is global unicast and it lies in none of the
five blocks. -/
theorem safeAddr_returns_vetted (w : World) (hostport : GoString) (tr : Trace) (s : GoString) (tr' : Trace)
    (host port : GoString) (ip : IP)
    (h : safeAddr w hostport tr = .ok ((s, none), tr'))
    (hs : SplitHostPort s = (host, port, none)) (hp : ParseIP host = some ip) (h4 : To4 ip ≠ none) :
    isBadIPv4 ip = .ok false ∧ Equal ip IPv4bcast = false ∧ IsGlobalUnicast ip = true ∧
      Contains netPrivateClassA ip = false ∧ Contains netPrivateClassB ip = false ∧
      Contains netPrivateClassC ip = false ∧ Contains netTestNet ip = false ∧
      Contains net6To4Relay ip = false := by
  have hb : isBadIPv4 ip = .ok false := by
    rcases safeAddr_ok_cases h with rfl | ⟨ip0, port0, p1, p2, p3, hv, rfl⟩
    · rw [SplitHostPort_nil] at hs
      simp at hs
    · exact vetted_text p1 p2 p3 hv hs hp h4
  exact ⟨hb, isBadIPv4_false_parts hb⟩

/-- Witness of C1: `example.org:80`, resolved to `93.184.216.34`, gives `93.184.216.34:80`. -/
theorem safeAddr_returns_vetted_witness :
    safeAddr rebindingWorld "example.org:80".toList [] =
        .ok (("93.184.216.34:80".toList, none), [Event.LookupIP "example.org".toList]) ∧
      (isBadIPv4 (IPv4 93 184 216 34) = .ok false ∧ Equal (IPv4 93 184 216 34) IPv4bcast = false ∧
        IsGlobalUnicast (IPv4 93 184 216 34) = true ∧
        Contains netPrivateClassA (IPv4 93 184 216 34) = false ∧
        Contains netPrivateClassB (IPv4 93 184 216 34) = false ∧
        Contains netPrivateClassC (IPv4 93 184 216 34) = false ∧
        Contains netTestNet (IPv4 93 184 216 34) = false ∧
        Contains net6To4Relay (IPv4 93 184 216 34) = false) :=
  ⟨by decide,
    safeAddr_returns_vetted rebindingWorld "example.org:80".toList [] "93.184.216.34:80".toList
      [Event.LookupIP "example.org".toList] "93.184.216.34".toList "80".toList (IPv4 93 184 216 34)
      (by decide) (by decide) (by decide) (by decide)⟩

/-- C2: for a host that is not an IP literal and not a bad host, a resolver answer without
error that contains, at any position, an IPv4 address for which `isBadIPv4` is true makes
`safeAddr` fail with the blocked-address error (for an IPv4 address of the answer that
`isBadIPv4` rejects), after the one lookup. -/
theorem safeAddr_rejects_poisoned_answer (w : World) (tr : Trace) (hostport host port : GoString)
    (ips : List IP) (bad : IP)
    (hs : SplitHostPort hostport = (host, port, none)) (hp : ParseIP host = none)
    (hh : isBadHost host = false) (hl : w.LookupIP tr host = (ips, none))
    (hmem : bad ∈ ips) (h4 : To4 bad ≠ none) (hb : isBadIPv4 bad = .ok true) :
    ∃ ip, ip ∈ ips ∧ To4 ip ≠ none ∧ isBadIPv4 ip = .ok true ∧
      safeAddr w hostport tr = .ok (([], some (Error.badIP ip)), tr ++ [Event.LookupIP host]) := by
  obtain ⟨ip, hip⟩ := firstBadIP_of_mem hmem h4 hb
  obtain ⟨h1, h2, h3⟩ := firstBadIP_some hip
  refine ⟨ip, h1, h2, h3, ?_⟩
  have hne : ¬ ips.length ≤ 0 := by
    cases ips with
    | nil => simp at hmem
    | cons _ _ => simp
  simp [safeAddr, hs, hp, hh, hl, hip, hne]

/-- Witness of C2: the answer `93.184.216.34, 10.0.0.5` for `example.com:80`, the private
address last. -/
theorem safeAddr_rejects_poisoned_answer_witness :
    ∃ ip, ip ∈ [IPv4 93 184 216 34, [10, 0, 0, 5]] ∧ To4 ip ≠ none ∧ isBadIPv4 ip = .ok true ∧
      safeAddr mixedWorld "example.com:80".toList [] =
        .ok (([], some (Error.badIP ip)), [] ++ [Event.LookupIP "example.com".toList]) :=
  safeAddr_rejects_poisoned_answer mixedWorld [] "example.com:80".toList "example.com".toList "80".toList
    [IPv4 93 184 216 34, [10, 0, 0, 5]] [10, 0, 0, 5]
    (by decide) (by decide) (by decide) (by decide) (by decide) (by decide) (by decide)

/-- C3: when the host of the input is a literal IPv4 address for which `isBadIPv4` is
true, `safeAddr` fails with the blocked-address error, whatever the port and whatever the
resolver, and makes no lookup (the trace is unchanged). -/
theorem safeAddr_rejects_bad_literal (w : World) (tr : Trace) (hostport host port : GoString) (ip : IP)
    (hs : SplitHostPort hostport = (host, port, none)) (hp : ParseIP host = some ip)
    (h4 : To4 ip ≠ none) (hb : isBadIPv4 ip = .ok true) :
    safeAddr w hostport tr = .ok (([], some (Error.badIP ip)), tr) :=
  safeAddr_literal_bad w tr hs hp h4 hb

/-- Witness of C3: the input `10.0.0.5:443`. -/
theorem safeAddr_rejects_bad_literal_witness :
    safeAddr mixedWorld "10.0.0.5:443".toList [] = .ok (([], some (Error.badIP (IPv4 10 0 0 5))), []) :=
  safeAddr_rejects_bad_literal mixedWorld [] "10.0.0.5:443".toList "10.0.0.5".toList "443".toList (IPv4 10 0 0 5)
    (by decide) (by decide) (by decide) (by decide)

/-- C4: `isBadIPv4` is true for every IPv4 address `a.b.c.d`, in 4-byte or 16-byte form,
inside one of the five blocks: `a = 10`, or `a = 172` and `16 ≤ b ≤ 31`, or
`(a, b) = (192, 168)`, or `(a, b, c) = (192, 0, 2)`, or `(a, b, c) = (192, 88, 99)`. -/
theorem isBadIPv4_blocklist (ip : IP) (a b c d : Byte) (h4 : To4 ip = some [a, b, c, d])
    (h : a = 10 ∨ (a = 172 ∧ 16 ≤ b ∧ b ≤ 31) ∨ (a = 192 ∧ b = 168) ∨ (a = 192 ∧ b = 0 ∧ c = 2) ∨
      (a = 192 ∧ b = 88 ∧ c = 99)) :
    isBadIPv4 ip = .ok true := by
  apply isBadIPv4_of_Blocked h4
  unfold Blocked
  rcases h with h | h | h | h | h
  · exact Or.inr (Or.inr (Or.inr (Or.inr (Or.inr (Or.inl h)))))
  · exact Or.inr (Or.inr (Or.inr (Or.inr (Or.inr (Or.inr (Or.inl h))))))
  · exact Or.inr (Or.inr (Or.inr (Or.inr (Or.inr (Or.inr (Or.inr (Or.inl h)))))))
  · exact Or.inr (Or.inr (Or.inr (Or.inr (Or.inr (Or.inr (Or.inr (Or.inr (Or.inl h))))))))
  · exact Or.inr (Or.inr (Or.inr (Or.inr (Or.inr (Or.inr (Or.inr (Or.inr (Or.inr h))))))))

/-- Witness of C4: the address `172.31.255.255`, the last one of `172.16.0.0/12`. -/
theorem isBadIPv4_blocklist_witness : isBadIPv4 (IPv4 172 31 255 255) = .ok true :=
  isBadIPv4_blocklist (IPv4 172 31 255 255) 172 31 255 255 (by decide) (by decide)

/-- C5: `isBadIPv4` is false for every IPv4 address `a.b.c.d` that is global unicast (not
`0.0.0.0`, not in `127.0.0.0/8`, `169.254.0.0/16`, `224.0.0.0/4`), is not the broadcast
address and lies outside the five blocks. -/
theorem isBadIPv4_public (ip : IP) (a b c d : Byte) (h4 : To4 ip = some [a, b, c, d])
    (hzero : ¬ (a = 0 ∧ b = 0 ∧ c = 0 ∧ d = 0)) (hloop : a ≠ 127) (hlink : ¬ (a = 169 ∧ b = 254))
    (hmulti : ¬ (224 ≤ a ∧ a ≤ 239)) (hbcast : ¬ (a = 255 ∧ b = 255 ∧ c = 255 ∧ d = 255))
    (hA : a ≠ 10) (hB : ¬ (a = 172 ∧ 16 ≤ b ∧ b ≤ 31)) (hC : ¬ (a = 192 ∧ b = 168))
    (hT : ¬ (a = 192 ∧ b = 0 ∧ c = 2)) (hR : ¬ (a = 192 ∧ b = 88 ∧ c = 99)) :
    isBadIPv4 ip = .ok false := by
  apply isBadIPv4_of_not_Blocked h4
  unfold Blocked
  simp only [not_or]
  exact ⟨hbcast, hzero, hloop, hmulti, hlink, hA, hB, hC, hT, hR⟩

/-- Witness of C5: the address `93.184.216.34`. -/
theorem isBadIPv4_public_witness : isBadIPv4 (IPv4 93 184 216 34) = .ok false :=
  isBadIPv4_public (IPv4 93 184 216 34) 93 184 216 34 (by decide) (by decide) (by decide) (by decide)
    (by decide) (by decide) (by decide) (by decide) (by decide) (by decide) (by decide)

/-- C6: `isBadIPv4` is true for every loopback address (`127.0.0.0/8`), every link-local
address (`169.254.0.0/16`), every multicast address (`224.0.0.0/4`), the unspecified
address `0.0.0.0` and the broadcast address `255.255.255.255`. -/
theorem isBadIPv4_not_global_unicast (ip : IP) (a b c d : Byte) (h4 : To4 ip = some [a, b, c, d])
    (h : a = 127 ∨ (a = 169 ∧ b = 254) ∨ (224 ≤ a ∧ a ≤ 239) ∨ (a = 0 ∧ b = 0 ∧ c = 0 ∧ d = 0) ∨
      (a = 255 ∧ b = 255 ∧ c = 255 ∧ d = 255)) :
    isBadIPv4 ip = .ok true := by
  apply isBadIPv4_of_Blocked h4
  unfold Blocked
  rcases h with h | h | h | h | h
  · exact Or.inr (Or.inr (Or.inl h))
  · exact Or.inr (Or.inr (Or.inr (Or.inr (Or.inl h))))
  · exact Or.inr (Or.inr (Or.inr (Or.inl h)))
  · exact Or.inr (Or.inl h)
  · exact Or.inl h

/-- Witness of C6: the multicast address `239.255.255.250`, in 4-byte form. -/
theorem isBadIPv4_not_global_unicast_witness : isBadIPv4 [239, 255, 255, 250] = .ok true :=
  isBadIPv4_not_global_unicast [239, 255, 255, 250] 239 255 255 250 (by decide) (by decide)

/-- Counterexample to C7: `isBadIPv4` is false for `240.0.0.1`, `100.64.0.1`, `198.18.0.1`,
`0.1.2.3`, `198.51.100.1` and `203.0.113.1`, and `safeAddr` succeeds on `240.0.0.1:80`. -/
theorem isBadIPv4_reserved_counterexample :
    isBadIPv4 (IPv4 240 0 0 1) = .ok false ∧ isBadIPv4 (IPv4 100 64 0 1) = .ok false ∧
    isBadIPv4 (IPv4 198 18 0 1) = .ok false ∧ isBadIPv4 (IPv4 0 1 2 3) = .ok false ∧
    isBadIPv4 (IPv4 198 51 100 1) = .ok false ∧ isBadIPv4 (IPv4 203 0 113 1) = .ok false ∧
    safeAddr deadWorld "240.0.0.1:80".toList [] = .ok (("240.0.0.1:80".toList, none), []) := by
  decide

/-- C7, amended: for a literal IPv4 host `a.b.c.d`, `isBadIPv4` is true and `safeAddr` fails
with the blocked-address error exactly when the address is `255.255.255.255`, `0.0.0.0`, in
`127.0.0.0/8`, `224.0.0.0/4`, `169.254.0.0/16` or in one of the five blocks; for every other
address `isBadIPv4` is false and `safeAddr` succeeds without a lookup, and this is the case
of every address of `240.0.0.0/4`, `100.64.0.0/10`, `198.18.0.0/15`, `0.0.0.0/8`,
`198.51.100.0/24` and `203.0.113.0/24` other than `255.255.255.255` and `0.0.0.0`. -/
theorem isBadIPv4_exact (w : World) (tr : Trace) (hostport host port : GoString) (ip : IP)
    (a b c d : Byte) (hs : SplitHostPort hostport = (host, port, none))
    (hp : ParseIP host = some ip) (h4 : To4 ip = some [a, b, c, d]) :
    (Blocked a b c d → isBadIPv4 ip = .ok true ∧
      safeAddr w hostport tr = .ok (([], some (Error.badIP ip)), tr)) ∧
    (¬ Blocked a b c d → isBadIPv4 ip = .ok false ∧
      safeAddr w hostport tr = .ok ((JoinHostPort (IPString ip) port, none), tr)) ∧
    (SpecialPurpose a b c → ¬ (a = 255 ∧ b = 255 ∧ c = 255 ∧ d = 255) →
      ¬ (a = 0 ∧ b = 0 ∧ c = 0 ∧ d = 0) → ¬ Blocked a b c d) := by
  have hne : To4 ip ≠ none := by simp [h4]
  refine ⟨fun hb => ?_, fun hb => ?_, fun hr h1 h0 => ?_⟩
  · have h := isBadIPv4_of_Blocked h4 hb
    exact ⟨h, safeAddr_literal_bad w tr hs hp hne h⟩
  · have h := isBadIPv4_of_not_Blocked h4 hb
    refine ⟨h, safeAddr_literal_ok w tr hs hp ?_⟩
    simp [isIPv4AndBad, hne, h]
  · unfold Blocked
    unfold SpecialPurpose at hr
    rcases a with ⟨a, ha⟩
    rcases b with ⟨b, hb⟩
    rcases c with ⟨c, hc⟩
    rcases d with ⟨d, hd⟩
    simp only [Fin.le_def, Fin.ext_iff, Fin.mk_le_mk] at hr h1 h0 ⊢
    norm_num at hr h1 h0 ⊢
    omega

/-- Witness of C7, amended: the input `240.0.0.1:80`, which `safeAddr` accepts. -/
theorem isBadIPv4_exact_witness :
    ¬ Blocked 240 0 0 1 ∧ isBadIPv4 (IPv4 240 0 0 1) = .ok false ∧
      safeAddr deadWorld "240.0.0.1:80".toList [] =
        .ok ((JoinHostPort (IPString (IPv4 240 0 0 1)) "80".toList, none), []) :=
  ⟨by decide,
    (isBadIPv4_exact deadWorld [] "240.0.0.1:80".toList "240.0.0.1".toList "80".toList (IPv4 240 0 0 1)
      240 0 0 1 (by decide) (by decide) (by decide)).2.1 (by decide)⟩

/-- Counterexample to C8: the host `a`, vertical tab (U+000B), `b` contains a whitespace
character and `isBadHost` is false for it. -/
theorem isBadHost_vertical_tab_counterexample :
    ¬ (isBadHost ['a', Char.ofNat 0x0B, 'b'] = true ↔
      (['a', Char.ofNat 0x0B, 'b'].map foldCase = "localhost".toList ∨
        ∃ c ∈ ['a', Char.ofNat 0x0B, 'b'], isWhitespace c = true)) := by
  decide

/-- C8, amended: `isBadHost host` is true exactly when `host` equals `localhost` ignoring
case (after case folding, under which U+017F also counts as `s`) or `host` contains at
least one of the five characters tab, line feed, form feed, carriage return and space; so
it is false for every host without these five characters that only contains `localhost` as
a proper substring. -/
theorem isBadHost_iff (host : GoString) :
    (isBadHost host = true ↔
      (host.map foldCase = "localhost".toList ∨
        ∃ c ∈ host, c = '\t' ∨ c = '\n' ∨ c = Char.ofNat 0x0C ∨ c = '\r' ∨ c = ' ')) ∧
    ("localhost".toList <:+: host → host ≠ "localhost".toList →
      (∀ c ∈ host, ¬ (c = '\t' ∨ c = '\n' ∨ c = Char.ofNat 0x0C ∨ c = '\r' ∨ c = ' ')) →
      isBadHost host = false) := by
  refine ⟨isBadHost_eq_true_iff host, fun hin hne hfree => ?_⟩
  rw [← Bool.not_eq_true, isBadHost_eq_true_iff]
  rintro (h | ⟨c, hc, hw⟩)
  · obtain ⟨s, t, rfl⟩ := hin
    have hl := congrArg List.length h
    simp only [List.length_map, List.length_append] at hl
    have h9 : "localhost".toList.length = 9 := by decide
    rw [h9] at hl
    have hs : s = [] := List.length_eq_zero.mp (by omega)
    have ht : t = [] := List.length_eq_zero.mp (by omega)
    subst hs ht
    simp at hne
  · exact hfree c hc hw

/-- Witness of C8, amended: `mylocalhost` and `localhost.example.com` are not bad hosts,
`localhost`, `LOCALHOST` and `a b` are. -/
theorem isBadHost_iff_witness :
    isBadHost "mylocalhost".toList = false ∧ isBadHost "localhost.example.com".toList = false ∧
      isBadHost "localhost".toList = true ∧ isBadHost "LOCALHOST".toList = true ∧
      isBadHost "a b".toList = true :=
  ⟨(isBadHost_iff "mylocalhost".toList).2 ⟨"my".toList, [], by decide⟩ (by decide) (by decide),
    (isBadHost_iff "localhost.example.com".toList).2 ⟨[], ".example.com".toList, by decide⟩
      (by decide) (by decide),
    (isBadHost_iff "localhost".toList).1.mpr (Or.inl (by decide)),
    (isBadHost_iff "LOCALHOST".toList).1.mpr (Or.inl (by decide)),
    (isBadHost_iff "a b".toList).1.mpr (Or.inr ⟨' ', by decide, by decide⟩)⟩

/-- C9: for a network other than `tcp` and `tcp4` the dial function fails with the
unsupported-network error; the trace is unchanged, so neither the resolver nor the
underlying dialer is called, whatever they would answer. -/
theorem NewDialer_unsupported_network (w : World) (dialer : Dialer) (network hostport : GoString) (tr : Trace)
    (h1 : network ≠ "tcp".toList) (h2 : network ≠ "tcp4".toList) :
    NewDialer w dialer network hostport tr = .ok ((none, some Error.unsupportedNetwork), tr) := by
  unfold NewDialer
  rw [if_neg (not_or.mpr ⟨h1, h2⟩)]

/-- Witness of C9: the network `udp`. -/
theorem NewDialer_unsupported_network_witness :
    NewDialer mixedWorld openDialer "udp".toList "example.com:53".toList [] =
      .ok ((none, some Error.unsupportedNetwork), []) :=
  NewDialer_unsupported_network mixedWorld openDialer "udp".toList "example.com:53".toList []
    (by decide) (by decide)

/-- C10: for the network `tcp` or `tcp4`, `safeAddr` returns (it does not panic) after at
most one lookup; when it returns an error, the dial function returns that error and the
trace of `safeAddr`, so the underlying dialer is not called; when it returns `s` without
error, the dial function calls the underlying dialer once, with `tcp4` and `s`, and returns
its answer. The outcome only depends on the answer of the resolver at the time of the
call: a resolver that answers differently later gives the same outcome. -/
theorem NewDialer_dials_validated_address (w : World) (dialer : Dialer) (network hostport : GoString)
    (tr : Trace) (hn : network = "tcp".toList ∨ network = "tcp4".toList) :
    ∃ s err tr', safeAddr w hostport tr = .ok ((s, err), tr') ∧
      (tr' = tr ∨ ∃ host, tr' = tr ++ [Event.LookupIP host]) ∧
      (err ≠ none → NewDialer w dialer network hostport tr = .ok ((none, err), tr')) ∧
      (err = none → NewDialer w dialer network hostport tr =
        .ok (dialer.Dial tr' "tcp4".toList s, tr' ++ [Event.Dial "tcp4".toList s])) ∧
      (∀ w' : World, (∀ host, w'.LookupIP tr host = w.LookupIP tr host) →
        NewDialer w' dialer network hostport tr = NewDialer w dialer network hostport tr) := by
  obtain ⟨s, err, tr', hsafe, htr⟩ := safeAddr_total w hostport tr
  refine ⟨s, err, tr', hsafe, htr, ?_, ?_, ?_⟩
  · intro he
    unfold NewDialer
    rw [if_pos hn, hsafe]
    simp only [he, if_true, ne_eq, not_false_eq_true]
  · intro he
    unfold NewDialer
    rw [if_pos hn, hsafe]
    simp only [he, ne_eq, not_true_eq_false, if_false]
  · intro w' hw
    unfold NewDialer
    rw [safeAddr_congr w w' hostport tr hw]

/-- Witness of C10: the network `tcp` and the input `example.org:80`, resolved once to
`93.184.216.34` by a resolver that gives a private address at every later lookup. -/
theorem NewDialer_dials_validated_address_witness :
    NewDialer rebindingWorld openDialer "tcp".toList "example.org:80".toList [] =
        .ok ((some ⟨1⟩, none), [Event.LookupIP "example.org".toList,
          Event.Dial "tcp4".toList "93.184.216.34:80".toList]) ∧
      ∃ s err tr', safeAddr rebindingWorld "example.org:80".toList [] = .ok ((s, err), tr') ∧
        (tr' = [] ∨ ∃ host, tr' = [] ++ [Event.LookupIP host]) ∧
        (err ≠ none → NewDialer rebindingWorld openDialer "tcp".toList "example.org:80".toList [] =
          .ok ((none, err), tr')) ∧
        (err = none → NewDialer rebindingWorld openDialer "tcp".toList "example.org:80".toList [] =
          .ok (openDialer.Dial tr' "tcp4".toList s, tr' ++ [Event.Dial "tcp4".toList s])) ∧
        (∀ w' : World, (∀ host, w'.LookupIP [] host = rebindingWorld.LookupIP [] host) →
          NewDialer w' openDialer "tcp".toList "example.org:80".toList [] =
            NewDialer rebindingWorld openDialer "tcp".toList "example.org:80".toList []) :=
  ⟨by decide,
    NewDialer_dials_validated_address rebindingWorld openDialer "tcp".toList "example.org:80".toList []
      (by decide)⟩

/-! ## Lemmas: the branches of `safeAddr` -/

theorem safeAddr_lookup_error {hostport host port : GoString} (w : World) (tr : Trace) (e : Error)
    (hs : SplitHostPort hostport = (host, port, none)) (hp : ParseIP host = none)
    (hh : isBadHost host = false) (hl : (w.LookupIP tr host).2 = some e) :
    safeAddr w hostport tr = .ok (([], some e), tr ++ [Event.LookupIP host]) := by
  simp [safeAddr, hs, hp, hh, hl]

theorem safeAddr_lookup_empty {hostport host port : GoString} (w : World) (tr : Trace)
    (hs : SplitHostPort hostport = (host, port, none)) (hp : ParseIP host = none)
    (hh : isBadHost host = false) (hl : w.LookupIP tr host = ([], none)) :
    safeAddr w hostport tr = .ok (([], none), tr ++ [Event.LookupIP host]) := by
  simp [safeAddr, hs, hp, hh, hl]

theorem firstBadIP_eq_none {ips : List IP} (h : ∀ ip ∈ ips, To4 ip ≠ none → isBadIPv4 ip = .ok false) :
    firstBadIP ips = .ok none := by
  induction ips with
  | nil => rfl
  | cons x ips ih =>
    have hx : isIPv4AndBad x = .ok false := by
      unfold isIPv4AndBad
      by_cases h4 : To4 x = none
      · simp [h4]
      · simp only [ne_eq, h4, not_false_eq_true, if_true]
        exact h x (List.mem_cons_self _ _) h4
    simp only [firstBadIP, hx]
    exact ih (fun ip hip => h ip (List.mem_cons_of_mem _ hip))

theorem safeAddr_lookup_ok {hostport host port : GoString} (w : World) (tr : Trace) (ip0 : IP)
    (rest : List IP)
    (hs : SplitHostPort hostport = (host, port, none)) (hp : ParseIP host = none)
    (hh : isBadHost host = false) (hl : w.LookupIP tr host = (ip0 :: rest, none))
    (hv : ∀ ip ∈ ip0 :: rest, To4 ip ≠ none → isBadIPv4 ip = .ok false) :
    safeAddr w hostport tr = .ok ((JoinHostPort (IPString ip0) port, none), tr ++ [Event.LookupIP host]) := by
  simp [safeAddr, hs, hp, hh, hl, firstBadIP_eq_none hv]

theorem safeAddr_bad_host {hostport host port : GoString} (w : World) (tr : Trace)
    (hs : SplitHostPort hostport = (host, port, none)) (hp : ParseIP host = none)
    (hh : isBadHost host = true) :
    safeAddr w hostport tr = .ok (([], some (Error.badHost host)), tr) := by
  simp [safeAddr, hs, hp, hh]

theorem safeAddr_split_error {hostport host port : GoString} (w : World) (tr : Trace) (e : Error)
    (hs : SplitHostPort hostport = (host, port, some e)) :
    safeAddr w hostport tr = .ok (([], some e), tr) := by
  simp [safeAddr, hs]

theorem SplitHostPort_error {hostport host port : GoString} {e : Error}
    (hs : SplitHostPort hostport = (host, port, some e)) :
    host = [] ∧ port = [] ∧ ∃ why, e = Error.addr why hostport := by
  unfold SplitHostPort at hs
  cases hl : LastIndexByteString hostport ':' with
  | none =>
    simp only [hl, Prod.mk.injEq, Option.some.injEq] at hs
    exact ⟨hs.1.symm, hs.2.1.symm, _, hs.2.2.symm⟩
  | some i =>
    simp only [hl] at hs
    split at hs
    · rename_i r hsplit
      subst hs
      split_ifs at hsplit with c1 c2
      · split at hsplit
        · simp only [Sum.inr.injEq, Prod.mk.injEq] at hsplit
          exact ⟨hsplit.1.symm, hsplit.2.1.symm, _, by simpa using hsplit.2.2.symm⟩
        · split_ifs at hsplit <;> simp only [Sum.inr.injEq, Prod.mk.injEq, reduceCtorEq] at hsplit <;>
            exact ⟨hsplit.1.symm, hsplit.2.1.symm, _, by simpa using hsplit.2.2.symm⟩
      · simp only [Sum.inr.injEq, Prod.mk.injEq] at hsplit
        exact ⟨hsplit.1.symm, hsplit.2.1.symm, _, by simpa using hsplit.2.2.symm⟩
    · split_ifs at hs <;> simp only [Prod.mk.injEq, Option.some.injEq, reduceCtorEq, and_false] at hs <;>
        exact ⟨hs.1.symm, hs.2.1.symm, _, hs.2.2.symm⟩

theorem SplitHostPort_no_colon (hostport : GoString) (h : ':' ∉ hostport) :
    SplitHostPort hostport = ([], [], some (Error.addr "missing port in address".toList hostport)) := by
  simp [SplitHostPort, (LastIndexByteString_eq_none hostport ':').mpr h]

/-! ## Lemmas: the text that `safeAddr` builds -/

set_option maxRecDepth 100000 in
theorem appendDecimal_eq_repr : ∀ x : Byte, appendDecimal [] x = (Nat.repr x.val).toList := by decide

theorem appendTo4_eq_dottedDecimal (a b c d : Byte) : appendTo4 [] [a, b, c, d] = dottedDecimal a b c d := by
  rw [appendTo4_eq, appendDecimal_eq_repr, appendDecimal_eq_repr, appendDecimal_eq_repr,
    appendDecimal_eq_repr, dottedDecimal]

theorem JoinHostPort_plain (h p : GoString) (hc : ':' ∉ h) : JoinHostPort h p = h ++ ':' :: p := by
  have : ¬ (IndexByteString h ':').isSome = true := fun hh => hc ((IndexByteString_isSome h ':').mp hh)
  simp [JoinHostPort, this]

theorem JoinHostPort_bracket (h p : GoString) (hc : ':' ∈ h) :
    JoinHostPort h p = '[' :: (h ++ ']' :: ':' :: p) := by
  simp [JoinHostPort, (IndexByteString_isSome h ':').mpr hc]

theorem dottedDecimal_no_colon (a b c d : Byte) : ':' ∉ dottedDecimal a b c d := by
  rw [← appendTo4_eq_dottedDecimal]
  exact fun hm => (appendTo4_chars a b c d _ hm).1 rfl

theorem IPString_v4_dotted {ip : IP} {a b c d : Byte} (h : To4 ip = some [a, b, c, d]) :
    IPString ip = dottedDecimal a b c d := by
  rw [IPString_v4 h, appendTo4_eq_dottedDecimal]

theorem JoinHostPort_v4 {ip : IP} {a b c d : Byte} (h : To4 ip = some [a, b, c, d]) (p : GoString) :
    JoinHostPort (IPString ip) p = dottedDecimal a b c d ++ ':' :: p := by
  rw [IPString_v4_dotted h, JoinHostPort_plain _ _ (dottedDecimal_no_colon a b c d)]

theorem JoinHostPort_v6 {ip : IP} (hlen : ip.length = 16) (h : To4 ip = none) (p : GoString) :
    JoinHostPort (IPString ip) p = '[' :: (appendTo6 [] ip ++ ']' :: ':' :: p) := by
  rw [IPString_v6 hlen h, JoinHostPort_bracket _ _ (appendTo6_colon_mem ip)]

theorem ParseIP_dottedDecimal (a b c d : Byte) : ParseIP (dottedDecimal a b c d) = some (IPv4 a b c d) := by
  rw [← appendTo4_eq_dottedDecimal, ParseIP_appendTo4]

theorem SplitHostPort_dotted (a b c d : Byte) (p : GoString) (hp : IsPort p) :
    SplitHostPort (dottedDecimal a b c d ++ ':' :: p) = (dottedDecimal a b c d, p, none) := by
  have hch := appendTo4_chars a b c d
  rw [appendTo4_eq_dottedDecimal] at hch
  exact SplitHostPort_join_plain _ _ (fun hm => (hch _ hm).1 rfl) (fun hm => (hch _ hm).2.2.1 rfl)
    (fun hm => (hch _ hm).2.2.2 rfl) hp.1 hp.2.1 hp.2.2

theorem isIPv4AndBad_of_To4 {ip : IP} {a b c d : Byte} (h : To4 ip = some [a, b, c, d]) :
    isIPv4AndBad ip = .ok (decide (Blocked a b c d)) := by
  simp [isIPv4AndBad, h, isBadIPv4_of_To4 h]

theorem isIPv4AndBad_of_none {ip : IP} (h : To4 ip = none) : isIPv4AndBad ip = .ok false := by
  simp [isIPv4AndBad, h]

/-! ## Lemmas: `ParseIP` returns 16 bytes -/

theorem parseIPv4FieldsLoop_length :
    ∀ (s : GoString) (prev : Option Char) (val pos digLen : Nat) (fields r : List Byte),
      parseIPv4FieldsLoop s prev val pos digLen fields = some r → fields.length = pos → pos ≤ 3 →
      r.length = 4 := by
  intro s
  induction s with
  | nil =>
    intro prev val pos digLen fields r h hl hp
    simp only [parseIPv4FieldsLoop] at h
    split_ifs at h with h3
    simp only [Option.some.injEq] at h
    subst h
    simp
    omega
  | cons c s ih =>
    intro prev val pos digLen fields r h hl hp
    simp only [parseIPv4FieldsLoop] at h
    split_ifs at h with h1 h2 h3 h4 h5 h6
    · exact ih _ _ _ _ _ _ h hl hp
    · exact ih _ _ _ _ _ _ h (by simp [hl]) (by omega)

theorem parseIPv4Fields_length {s : GoString} {r : List Byte} (h : parseIPv4Fields s = some r) :
    r.length = 4 :=
  parseIPv4FieldsLoop_length s none 0 0 0 [] r h rfl (by omega)

theorem parseIPv6Loop_length :
    ∀ (k : Nat) (s : GoString) (ip : List Byte) (e : Option Nat) (s' : GoString) (ip' : List Byte)
      (e' : Option Nat),
      parseIPv6Loop k s ip e = some (s', ip', e') → ip.length + 2 * k ≤ 16 → ip'.length ≤ 16 := by
  intro k
  induction k with
  | zero =>
    intro s ip e s' ip' e' h hl
    simp only [parseIPv6Loop, Option.some.injEq, Prod.mk.injEq] at h
    obtain ⟨-, rfl, -⟩ := h
    omega
  | succ k ih =>
    intro s ip e s' ip' e' h hl
    simp only [parseIPv6Loop] at h
    split at h
    · cases h
    · rename_i acc off rest hhex
      by_cases h1 : off = 0
      · simp [h1] at h
      · simp only [h1, if_false] at h
        by_cases h2 : rest.head? = some '.'
        · simp only [h2, if_true] at h
          split_ifs at h with h3 h4
          split at h
          · cases h
          · rename_i fields hf
            simp only [Option.some.injEq, Prod.mk.injEq] at h
            obtain ⟨-, rfl, -⟩ := h
            have := parseIPv4Fields_length hf
            simp only [List.length_append, this]
            omega
        · simp only [h2, if_false] at h
          cases rest with
          | nil =>
            simp only [Option.some.injEq, Prod.mk.injEq] at h
            obtain ⟨-, rfl, -⟩ := h
            simp only [List.length_append, List.length_cons, List.length_nil]
            omega
          | cons c t =>
            simp only at h
            split_ifs at h with c1 c2 c3 c4 c5
            · simp only [Option.some.injEq, Prod.mk.injEq] at h
              obtain ⟨-, rfl, -⟩ := h
              simp only [List.length_append, List.length_cons, List.length_nil]
              omega
            · exact ih _ _ _ _ _ _ h (by simp only [List.length_append, List.length_cons, List.length_nil]; omega)
            · exact ih _ _ _ _ _ _ h (by simp only [List.length_append, List.length_cons, List.length_nil]; omega)

theorem parseIPv6_post_length (r : Option (GoString × List Byte × Option Nat)) (zone : GoString)
    (ip : List Byte) (z : GoString)
    (h : (match r with
        | none => none
        | some (s, ip, ellipsis) =>
          if s.length ≠ 0 then none
          else if ip.length < 16 then
            match ellipsis with
            | none => none
            | some e => some (ip.take e ++ List.replicate (16 - ip.length) 0 ++ ip.drop e, zone)
          else if ellipsis.isSome then none
          else some (ip, zone)) = some (ip, z))
    (hr : ∀ s' ip' e', r = some (s', ip', e') → ip'.length ≤ 16) : ip.length = 16 := by
  split at h
  · cases h
  · rename_i s1 ip1 e1
    have hlen := hr _ _ _ rfl
    split_ifs at h with c1 c2 c3
    · split at h
      · cases h
      · simp only [Option.some.injEq, Prod.mk.injEq] at h
        rw [← h.1]
        simp only [List.length_append, List.length_take, List.length_replicate, List.length_drop]
        omega
    · simp only [Option.some.injEq, Prod.mk.injEq] at h
      rw [← h.1]
      omega

theorem parseIPv6_core_length (s zone : GoString) (ip : List Byte) (z : GoString)
    (h : (let lead : Bool := s.length ≥ 2 ∧ s.head? = some ':' ∧ (s.drop 1).head? = some ':'
      if lead = true ∧ s.drop 2 = [] then some (IPv6unspecified, zone)
      else
        match parseIPv6Loop 8 (if lead then s.drop 2 else s) [] (if lead then some 0 else none) with
        | none => none
        | some (s, ip, ellipsis) =>
          if s.length ≠ 0 then none
          else if ip.length < 16 then
            match ellipsis with
            | none => none
            | some e => some (ip.take e ++ List.replicate (16 - ip.length) 0 ++ ip.drop e, zone)
          else if ellipsis.isSome then none
          else some (ip, zone)) = some (ip, z)) : ip.length = 16 := by
  simp only at h
  by_cases h1 : (decide (s.length ≥ 2 ∧ s.head? = some ':' ∧ (s.drop 1).head? = some ':') = true ∧
      s.drop 2 = [])
  · rw [if_pos h1] at h
    simp only [Option.some.injEq, Prod.mk.injEq] at h
    rw [← h.1]
    rfl
  · rw [if_neg h1] at h
    exact parseIPv6_post_length _ _ _ _ h
      (fun s' ip' e' hr => parseIPv6Loop_length _ _ _ _ _ _ _ hr (by simp))

theorem parseIPv6_length {s : GoString} {ip : List Byte} {zone : GoString}
    (h : parseIPv6 s = some (ip, zone)) : ip.length = 16 := by
  unfold parseIPv6 at h
  cases hpct : IndexByteString s '%' with
  | none =>
    simp only [hpct] at h
    exact parseIPv6_core_length _ _ _ _ h
  | some i =>
    simp only [hpct] at h
    by_cases hz : s.drop (i + 1) = []
    · simp [hz] at h
    · simp only [hz, if_false] at h
      exact parseIPv6_core_length _ _ _ _ h

theorem ParseIP_length {s : GoString} {ip : IP} (h : ParseIP s = some ip) : ip.length = 16 := by
  unfold ParseIP at h
  split at h
  · rename_i p zone hpa
    split_ifs at h
    simp only [Option.some.injEq] at h
    subst h
    unfold ParseAddr at hpa
    split at hpa
    · split at hpa
      · rename_i p4 h4
        simp only [Option.some.injEq, Prod.mk.injEq] at hpa
        obtain ⟨rfl, -⟩ := hpa
        have := parseIPv4Fields_length h4
        simp [As16, this, IPv4, v4InV6Prefix]
      · cases hpa
    · have := parseIPv6_length hpa
      simp [As16, this]
    · cases hpa
  · cases h

/-! ## Lemmas: reading an IPv4-mapped literal -/

theorem parseHexLoop_dot (s : GoString) (acc off : Nat) :
    parseHexLoop ('.' :: s) acc off = some (acc, off, '.' :: s) := by
  have h1 : ¬ ('0' ≤ '.' ∧ '.' ≤ '9') := by decide
  have h2 : ¬ ('a' ≤ '.' ∧ '.' ≤ 'f') := by decide
  have h3 : ¬ ('A' ≤ '.' ∧ '.' ≤ 'F') := by decide
  simp only [parseHexLoop, h1, h2, h3, if_false]

theorem parseHexLoop_decimal (x : Byte) (t : GoString) :
    ∃ acc n, n ≠ 0 ∧ parseHexLoop (appendDecimal [] x ++ '.' :: t) 0 0 = some (acc, n, '.' :: t) := by
  have hx := x.isLt
  unfold appendDecimal
  by_cases h100 : x.val ≥ 100
  · have h10 : x.val ≥ 10 := by omega
    simp only [h100, h10, if_true, List.nil_append, List.cons_append, List.singleton_append]
    rw [parseHexLoop_digit _ (by omega), parseHexLoop_digit _ (by omega), parseHexLoop_digit _ (by omega),
      parseHexLoop_dot]
    refine ⟨((0 * 16 + x.val / 100) * 16 + x.val / 10 % 10) * 16 + x.val % 10, 3, by omega, ?_⟩
    have e1 : ¬ (0 * 16 + x.val / 100 > 0xFFFF) := by omega
    have e2 : ¬ ((0 * 16 + x.val / 100) * 16 + x.val / 10 % 10 > 0xFFFF) := by omega
    have e3 : ¬ (((0 * 16 + x.val / 100) * 16 + x.val / 10 % 10) * 16 + x.val % 10 > 0xFFFF) := by omega
    simp only [e1, e2, e3, if_false]
    simp
  · by_cases h10 : x.val ≥ 10
    · simp only [h100, h10, if_true, if_false, List.nil_append, List.cons_append, List.singleton_append]
      rw [parseHexLoop_digit _ (by omega), parseHexLoop_digit _ (by omega), parseHexLoop_dot]
      refine ⟨(0 * 16 + x.val / 10 % 10) * 16 + x.val % 10, 2, by omega, ?_⟩
      have e2 : ¬ (0 * 16 + x.val / 10 % 10 > 0xFFFF) := by omega
      have e3 : ¬ ((0 * 16 + x.val / 10 % 10) * 16 + x.val % 10 > 0xFFFF) := by omega
      simp only [e2, e3, if_false]
      simp
    · simp only [h100, h10, if_false, List.nil_append, List.cons_append, List.singleton_append]
      rw [parseHexLoop_digit _ (by omega), parseHexLoop_dot]
      refine ⟨0 * 16 + x.val % 10, 1, by omega, ?_⟩
      have e3 : ¬ (0 * 16 + x.val % 10 > 0xFFFF) := by omega
      simp only [e3, if_false]
      simp

theorem dottedDecimal_cons (a b c d : Byte) :
    ∃ t, dottedDecimal a b c d = appendDecimal [] a ++ '.' :: t := by
  rw [← appendTo4_eq_dottedDecimal, appendTo4_eq]
  exact ⟨_, rfl⟩

theorem dottedDecimal_chars (a b c d : Byte) :
    ∀ x ∈ dottedDecimal a b c d, x ≠ ':' ∧ x ≠ '%' ∧ x ≠ '[' ∧ x ≠ ']' := by
  rw [← appendTo4_eq_dottedDecimal]
  exact appendTo4_chars a b c d

theorem dottedDecimal_head (a b c d : Byte) :
    dottedDecimal a b c d ≠ [] ∧ (dottedDecimal a b c d).head? ≠ some ':' := by
  have hch := dottedDecimal_chars a b c d
  cases h : dottedDecimal a b c d with
  | nil =>
    obtain ⟨t, ht⟩ := dottedDecimal_cons a b c d
    rw [h] at ht
    have := appendDecimal_ne_nil a
    cases h' : appendDecimal [] a with
    | nil => exact absurd h' this
    | cons y ys => rw [h'] at ht; simp at ht
  | cons y ys =>
    rw [h] at hch
    have := (hch y (List.mem_cons_self _ _)).1
    simp [this]

theorem parseIPv6Loop_embedded (k : Nat) (a b c d : Byte) (ip : List Byte) (e : Nat)
    (hi : ip.length + 4 ≤ 16) :
    parseIPv6Loop (k + 1) (dottedDecimal a b c d) ip (some e) = some ([], ip ++ [a, b, c, d], some e) := by
  obtain ⟨t, ht⟩ := dottedDecimal_cons a b c d
  obtain ⟨acc, n, hn, hp⟩ := parseHexLoop_decimal a t
  have hf : parseIPv4Fields (dottedDecimal a b c d) = some [a, b, c, d] := by
    rw [← appendTo4_eq_dottedDecimal]; exact parseIPv4Fields_appendTo4 a b c d
  rw [← ht] at hp
  have h16 : ¬ (ip.length + 4 > 16) := by omega
  simp [parseIPv6Loop, hp, hn, hf, h16]

theorem ffff_eq : "ffff".toList = appendHex [] 0xffff := by decide

theorem parseIPv6_mappedLiteral (a b c d : Byte) :
    parseIPv6 (mappedLiteral a b c d) = some (IPv4 a b c d, []) := by
  have hch := dottedDecimal_chars a b c d
  obtain ⟨hne, hhead⟩ := dottedDecimal_head a b c d
  have hpct : IndexByteString (mappedLiteral a b c d) '%' = none := by
    rw [IndexByteString_eq_none, mappedLiteral]
    intro hm
    rcases List.mem_append.mp hm with h | h
    · revert h; decide
    · exact (hch _ h).2.1 rfl
  have hloop : parseIPv6Loop 8 ('f' :: 'f' :: 'f' :: 'f' :: ':' :: dottedDecimal a b c d) [] (some 0) =
      some ([], [255, 255, a, b, c, d], some 0) := by
    have e : 'f' :: 'f' :: 'f' :: 'f' :: ':' :: dottedDecimal a b c d =
        appendHex [] 0xffff ++ ':' :: dottedDecimal a b c d := by
      rw [← ffff_eq]; rfl
    rw [e, parseIPv6Loop_colon 7 _ (by omega) _ _ _ hne hhead,
      parseIPv6Loop_embedded 6 a b c d _ 0 (by simp)]
    rfl
  unfold parseIPv6
  rw [hpct]
  simp only [mappedLiteral, String.toList]
  simp [hloop, hne, IPv4, v4InV6Prefix]

theorem ParseIP_mappedLiteral (a b c d : Byte) :
    ParseIP (mappedLiteral a b c d) = some (IPv4 a b c d) := by
  have hsep : firstSep (mappedLiteral a b c d) = some ':' := by
    simp [mappedLiteral, firstSep]
  simp [ParseIP, ParseAddr, hsep, parseIPv6_mappedLiteral, As16, IPv4, v4InV6Prefix]

theorem SplitHostPort_mappedLiteral (a b c d : Byte) (p : GoString) (hp : IsPort p) :
    SplitHostPort ('[' :: (mappedLiteral a b c d ++ ']' :: ':' :: p)) = (mappedLiteral a b c d, p, none) := by
  have hch := dottedDecimal_chars a b c d
  apply SplitHostPort_join_bracket _ _ _ _ hp.1 hp.2.1 hp.2.2
  · rw [mappedLiteral]
    intro hm
    rcases List.mem_append.mp hm with h | h
    · revert h; decide
    · exact (hch _ h).2.2.1 rfl
  · rw [mappedLiteral]
    intro hm
    rcases List.mem_append.mp hm with h | h
    · revert h; decide
    · exact (hch _ h).2.2.2 rfl

/-! ## Lemmas: `safeAddr` on its own results -/

theorem safeAddr_ok_source {w : World} {hostport s : GoString} {tr tr' : Trace}
    (h : safeAddr w hostport tr = .ok ((s, none), tr')) :
    s = [] ∨ ∃ ip0 port0, IsPort port0 ∧ isIPv4AndBad ip0 = .ok false ∧
      s = JoinHostPort (IPString ip0) port0 ∧
      (ip0.length = 16 ∨ ∃ host, ip0 ∈ (w.LookupIP tr host).1) := by
  unfold safeAddr at h
  rcases hs : SplitHostPort hostport with ⟨host, port, _ | err⟩
  · have hport : IsPort port := SplitHostPort_port hs
    simp only [hs] at h
    cases hp : ParseIP host with
    | some ip =>
      simp only [hp] at h
      obtain ⟨b, hb⟩ := isIPv4AndBad_total ip
      cases b
      · simp only [hb, Except.ok.injEq, Prod.mk.injEq, and_true] at h
        exact Or.inr ⟨ip, port, hport, hb, h.1.symm, Or.inl (ParseIP_length hp)⟩
      · simp [hb] at h
    | none =>
      simp only [hp] at h
      by_cases hh : isBadHost host = true
      · simp [hh] at h
      · simp only [hh, Bool.false_eq_true, if_false] at h
        split_ifs at h with hc
        · simp only [Except.ok.injEq, Prod.mk.injEq] at h
          exact Or.inl h.1.1.symm
        · obtain ⟨r, hr⟩ := firstBadIP_total (w.LookupIP tr host).1
          cases r with
          | some bad => simp [hr] at h
          | none =>
            simp only [hr, Except.ok.injEq, Prod.mk.injEq, and_true] at h
            have hne : (w.LookupIP tr host).1 ≠ [] := by
              intro he
              apply hc
              right
              simp [he]
            have hmem : (w.LookupIP tr host).1.headD [] ∈ (w.LookupIP tr host).1 := by
              cases hl : (w.LookupIP tr host).1 with
              | nil => exact absurd hl hne
              | cons x xs => simp
            exact Or.inr ⟨_, port, hport, firstBadIP_none hr _ hmem, h.1.symm, Or.inr ⟨host, hmem⟩⟩
  · simp [hs] at h

theorem safeAddr_fixpoint {ip0 : IP} {port0 : GoString} (hlen : ip0.length = 4 ∨ ip0.length = 16)
    (hport : IsPort port0) (hv : isIPv4AndBad ip0 = .ok false) (w : World) (tr : Trace) :
    (∃ ip, SplitHostPort (JoinHostPort (IPString ip0) port0) = (IPString ip0, port0, none) ∧
      ParseIP (IPString ip0) = some ip) ∧
    safeAddr w (JoinHostPort (IPString ip0) port0) tr =
      .ok ((JoinHostPort (IPString ip0) port0, none), tr) := by
  have hs := SplitHostPort_JoinHostPort (IPString ip0) port0 (IPString_brackets ip0).1
    (IPString_brackets ip0).2 hport.1 hport.2.1 hport.2.2
  cases hv4 : To4 ip0 with
  | some v =>
    obtain ⟨a, b, c, d, rfl⟩ := To4_exists hv4
    have hp := ParseIP_IPString_v4 hv4
    refine ⟨⟨_, hs, hp⟩, ?_⟩
    have hb : isIPv4AndBad (IPv4 a b c d) = .ok false := by
      rw [isIPv4AndBad_of_To4 (To4_IPv4 a b c d), ← isIPv4AndBad_of_To4 hv4, hv]
    rw [safeAddr_literal_ok w tr hs hp hb, IPString_v4 (To4_IPv4 a b c d), IPString_v4 hv4]
  | none =>
    have h16 : ip0.length = 16 := by
      rcases hlen with h | h
      · simp [To4, IPv4len, h] at hv4
      · exact h
    have hp := ParseIP_IPString_v6 h16 hv4
    exact ⟨⟨_, hs, hp⟩, safeAddr_literal_ok w tr hs hp hv⟩

/-! ## Lemmas: no panic -/

theorem NewDialer_total (w : World) (dialer : Dialer) (network hostport : GoString) (tr : Trace) :
    ∃ r, NewDialer w dialer network hostport tr = .ok r := by
  unfold NewDialer
  split_ifs with hn
  · obtain ⟨s, err, tr', hsafe, -⟩ := safeAddr_total w hostport tr
    rw [hsafe]
    simp only
    split_ifs <;> exact ⟨_, rfl⟩
  · exact ⟨_, rfl⟩

theorem isBadIPv4_panics_iff (ip : IP) :
    isBadIPv4 ip = .error "cannot be called for IPv6".toList ↔ To4 ip = none := by
  unfold isBadIPv4
  by_cases h : To4 ip = none
  · simp [h]
  · simp only [h, if_false, iff_false]
    split_ifs <;> simp

/-! ## The properties of the specification, continued -/

/-- C11, at the failing input: for `example.com:80` and a resolver that returns an empty
list and no error, `safeAddr` returns the empty string and no error after the lookup, and
the dial function then asks the underlying dialer to connect to the empty address. -/
theorem safeAddr_empty_answer_returns_nil_error :
    safeAddr emptyWorld "example.com:80".toList [] =
        .ok (([], none), [Event.LookupIP "example.com".toList]) ∧
      NewDialer emptyWorld openDialer "tcp".toList "example.com:80".toList [] =
        .ok ((some ⟨1⟩, none), [Event.LookupIP "example.com".toList, Event.Dial "tcp4".toList []]) := by
  decide

/-- C12: for the canonical dotted-decimal text of an IPv4 address `a.b.c.d` for which
`isBadIPv4` is false and every port `p`, `safeAddr` on `a.b.c.d:p` returns exactly its
input, without error and without a lookup, whatever the resolver. -/
theorem safeAddr_canonical_ipv4_literal (w : World) (tr : Trace) (a b c d : Byte) (p : GoString)
    (hp : IsPort p) (hb : isBadIPv4 (IPv4 a b c d) = .ok false) :
    safeAddr w (dottedDecimal a b c d ++ ':' :: p) tr =
      .ok ((dottedDecimal a b c d ++ ':' :: p, none), tr) := by
  have hv : isIPv4AndBad (IPv4 a b c d) = .ok false := by
    simp [isIPv4AndBad, To4_IPv4, hb]
  rw [safeAddr_literal_ok w tr (SplitHostPort_dotted a b c d p hp) (ParseIP_dottedDecimal a b c d) hv,
    JoinHostPort_v4 (To4_IPv4 a b c d)]

/-- Witness of C12: the input `93.184.216.34:80`. -/
theorem safeAddr_canonical_ipv4_literal_witness :
    dottedDecimal 93 184 216 34 ++ ':' :: "80".toList = "93.184.216.34:80".toList ∧
      safeAddr deadWorld (dottedDecimal 93 184 216 34 ++ ':' :: "80".toList) [] =
        .ok ((dottedDecimal 93 184 216 34 ++ ':' :: "80".toList, none), []) :=
  ⟨by decide,
    safeAddr_canonical_ipv4_literal deadWorld [] 93 184 216 34 "80".toList (by decide) (by decide)⟩

/-- C13: for a host that is not an IP literal and not a bad host, and a resolver answer
without error `ip0, rest...` in which no IPv4 address is bad, `safeAddr` returns, after the
one lookup and without error, the text of `ip0` joined with the port: `a.b.c.d:port` when
`ip0` is the IPv4 address `a.b.c.d`, and `[text]:port` when `ip0` is an IPv6 address. The
other addresses of the answer do not occur in the result. -/
theorem safeAddr_returns_first_address (w : World) (tr : Trace) (hostport host port : GoString)
    (ip0 : IP) (rest : List IP)
    (hs : SplitHostPort hostport = (host, port, none)) (hp : ParseIP host = none)
    (hh : isBadHost host = false) (hl : w.LookupIP tr host = (ip0 :: rest, none))
    (hv : ∀ ip ∈ ip0 :: rest, To4 ip ≠ none → isBadIPv4 ip = .ok false) :
    safeAddr w hostport tr = .ok ((JoinHostPort (IPString ip0) port, none), tr ++ [Event.LookupIP host]) ∧
      (∀ a b c d, To4 ip0 = some [a, b, c, d] →
        JoinHostPort (IPString ip0) port = dottedDecimal a b c d ++ ':' :: port) ∧
      (ip0.length = 16 → To4 ip0 = none →
        JoinHostPort (IPString ip0) port = '[' :: (appendTo6 [] ip0 ++ ']' :: ':' :: port)) :=
  ⟨safeAddr_lookup_ok w tr ip0 rest hs hp hh hl hv,
    fun _ _ _ _ h4 => JoinHostPort_v4 h4 port,
    fun hlen h4 => JoinHostPort_v6 hlen h4 port⟩

/-- Witness of C13: the answer `2001:db8::1, 93.184.216.34` for `example.com:80` gives
`[2001:db8::1]:80`. -/
theorem safeAddr_returns_first_address_witness :
    safeAddr sixWorld "example.com:80".toList [] =
        .ok (("[2001:db8::1]:80".toList, none), [Event.LookupIP "example.com".toList]) ∧
      safeAddr sixWorld "example.com:80".toList [] =
        .ok ((JoinHostPort (IPString [0x20, 0x01, 0x0d, 0xb8, 0, 0, 0, 0, 0, 0, 0, 0, 0, 0, 0, 1])
          "80".toList, none), [] ++ [Event.LookupIP "example.com".toList]) :=
  ⟨by decide,
    (safeAddr_returns_first_address sixWorld [] "example.com:80".toList "example.com".toList "80".toList
      [0x20, 0x01, 0x0d, 0xb8, 0, 0, 0, 0, 0, 0, 0, 0, 0, 0, 0, 1] [IPv4 93 184 216 34]
      (by decide) (by decide) (by decide) (by decide) (by decide)).1⟩

/-- Counterexample to C14: `safeAddr` fails with the blocked-address error on the
IPv4-mapped literal `[::ffff:10.0.0.1]:80`; on `[::ffff:93.184.216.34]:80` it returns
`93.184.216.34:80` and on `[0:0:0:0:0:0:0:1]:80` it returns `[::1]:80`, not the literal of
the input. -/
theorem safeAddr_ipv6_literal_counterexample :
    safeAddr deadWorld "[::ffff:10.0.0.1]:80".toList [] =
        .ok (([], some (Error.badIP (IPv4 10 0 0 1))), []) ∧
      safeAddr deadWorld "[::ffff:93.184.216.34]:80".toList [] =
        .ok (("93.184.216.34:80".toList, none), []) ∧
      safeAddr deadWorld "[0:0:0:0:0:0:0:1]:80".toList [] = .ok (("[::1]:80".toList, none), []) := by
  decide

/-- C14, amended: for an IPv6 address `ip` that is not IPv4-mapped (`To4` is `nil`) and
every port, `safeAddr` on every input whose host is a literal of `ip` succeeds without a
lookup and returns the canonical text of `ip`, in brackets, joined with the port; on the
input written with the canonical text it returns exactly its input. -/
theorem safeAddr_ipv6_literal (w : World) (tr : Trace) (ip : IP) (port : GoString)
    (hlen : ip.length = 16) (h4 : To4 ip = none) (hport : IsPort port) :
    (∀ hostport host, SplitHostPort hostport = (host, port, none) → ParseIP host = some ip →
      safeAddr w hostport tr = .ok (('[' :: (IPString ip ++ ']' :: ':' :: port), none), tr)) ∧
    safeAddr w ('[' :: (IPString ip ++ ']' :: ':' :: port)) tr =
      .ok (('[' :: (IPString ip ++ ']' :: ':' :: port), none), tr) := by
  have hj : JoinHostPort (IPString ip) port = '[' :: (IPString ip ++ ']' :: ':' :: port) := by
    rw [JoinHostPort_v6 hlen h4, IPString_v6 hlen h4]
  constructor
  · intro hostport host hs hp
    rw [safeAddr_literal_ok w tr hs hp (isIPv4AndBad_of_none h4), hj]
  · have := (safeAddr_fixpoint (Or.inr hlen) hport (isIPv4AndBad_of_none h4) w tr).2
    rw [hj] at this
    exact this

/-- Witness of C14, amended: the loopback literal `[::1]:80`. -/
theorem safeAddr_ipv6_literal_witness :
    '[' :: (IPString IPv6loopback ++ ']' :: ':' :: "80".toList) = "[::1]:80".toList ∧
      safeAddr deadWorld ('[' :: (IPString IPv6loopback ++ ']' :: ':' :: "80".toList)) [] =
        .ok (('[' :: (IPString IPv6loopback ++ ']' :: ':' :: "80".toList), none), []) :=
  ⟨by decide,
    (safeAddr_ipv6_literal deadWorld [] IPv6loopback "80".toList (by decide) (by decide) (by decide)).2⟩

/-- C15: for a host that is not an IP literal and for which `isBadHost` is true, `safeAddr`
fails with the blocked-host error, whatever the port and whatever the resolver, and makes
no lookup (the trace is unchanged). -/
theorem safeAddr_rejects_bad_host (w : World) (tr : Trace) (hostport host port : GoString)
    (hs : SplitHostPort hostport = (host, port, none)) (hp : ParseIP host = none)
    (hh : isBadHost host = true) :
    safeAddr w hostport tr = .ok (([], some (Error.badHost host)), tr) :=
  safeAddr_bad_host w tr hs hp hh

/-- Witness of C15: the input `LocalHost:8080`, with a resolver that would answer. -/
theorem safeAddr_rejects_bad_host_witness :
    safeAddr mixedWorld "LocalHost:8080".toList [] =
      .ok (([], some (Error.badHost "LocalHost".toList)), []) :=
  safeAddr_rejects_bad_host mixedWorld [] "LocalHost:8080".toList "LocalHost".toList "8080".toList
    (by decide) (by decide) (by decide)

/-- C16: when `net.SplitHostPort` fails on the input, `safeAddr` returns the empty string
and that error, an address error about the input, with the trace unchanged, whatever the
resolver; this is the case of every input without a colon. -/
theorem safeAddr_rejects_malformed (w : World) (tr : Trace) (hostport : GoString) :
    (∀ host port e, SplitHostPort hostport = (host, port, some e) →
      safeAddr w hostport tr = .ok (([], some e), tr) ∧ ∃ why, e = Error.addr why hostport) ∧
    (':' ∉ hostport →
      safeAddr w hostport tr =
        .ok (([], some (Error.addr "missing port in address".toList hostport)), tr)) :=
  ⟨fun _ _ e hs => ⟨safeAddr_split_error w tr e hs, (SplitHostPort_error hs).2.2⟩,
    fun hc => safeAddr_split_error w tr _ (SplitHostPort_no_colon hostport hc)⟩

/-- Witness of C16: `not-a-valid-hostport` (no colon), `a:b:c` (too many colons) and `[::1:80`
(no closing bracket). -/
theorem safeAddr_rejects_malformed_witness :
    safeAddr mixedWorld "not-a-valid-hostport".toList [] =
        .ok (([], some (Error.addr "missing port in address".toList "not-a-valid-hostport".toList)), []) ∧
      safeAddr mixedWorld "a:b:c".toList [] =
        .ok (([], some (Error.addr "too many colons in address".toList "a:b:c".toList)), []) ∧
      safeAddr mixedWorld "[::1:80".toList [] =
        .ok (([], some (Error.addr "missing ']' in address".toList "[::1:80".toList)), []) :=
  ⟨(safeAddr_rejects_malformed mixedWorld [] "not-a-valid-hostport".toList).2 (by decide),
    ((safeAddr_rejects_malformed mixedWorld [] "a:b:c".toList).1 [] []
      (Error.addr "too many colons in address".toList "a:b:c".toList) (by decide)).1,
    ((safeAddr_rejects_malformed mixedWorld [] "[::1:80".toList).1 [] []
      (Error.addr "missing ']' in address".toList "[::1:80".toList) (by decide)).1⟩

/-- Counterexample to C17: `:80` splits into the empty host and the port `80` without
error, so the input is not rejected as malformed; with a resolver that fails on the empty
name, as `net.LookupIP` does, `safeAddr` calls the lookup with the empty host and returns
the error of the lookup, which is not an address error of `net.SplitHostPort`. -/
theorem safeAddr_empty_host_counterexample :
    SplitHostPort ":80".toList = ([], "80".toList, none) ∧
      LookupIPRejectsEmptyHost deadWorld ∧
      safeAddr deadWorld ":80".toList [] =
        .ok (([], some (Error.external [])), [Event.LookupIP []]) :=
  ⟨by decide, fun _ => ⟨_, rfl⟩, by decide⟩

/-- C17, amended: a host:port string decomposes into a host component, which may be
empty, and a port component. For every input whose host component is empty, `safeAddr`
fails, with no address returned, but not as malformed: the empty host is not an IP
literal and not a bad host, it is handed to `net.LookupIP`, which fails for the empty
name, and `safeAddr` returns the error of that lookup. -/
theorem safeAddr_empty_host (w : World) (tr : Trace) (hostport port : GoString)
    (hs : SplitHostPort hostport = ([], port, none)) (hw : LookupIPRejectsEmptyHost w) :
    ParseIP [] = none ∧ isBadHost [] = false ∧
    ∃ e, w.LookupIP tr [] = ([], some e) ∧
      safeAddr w hostport tr = .ok (([], some e), tr ++ [Event.LookupIP []]) := by
  have hp : ParseIP [] = none := by decide
  have hh : isBadHost [] = false := by decide
  obtain ⟨e, he⟩ := hw tr
  exact ⟨hp, hh, e, he, safeAddr_lookup_error w tr e hs hp hh (by rw [he])⟩

/-- Witness of C17, amended: the input `:80` with a resolver that fails on every name. -/
theorem safeAddr_empty_host_witness :
    SplitHostPort ":80".toList = ([], "80".toList, none) ∧ LookupIPRejectsEmptyHost deadWorld ∧
      ∃ e, deadWorld.LookupIP [] [] = ([], some e) ∧
        safeAddr deadWorld ":80".toList [] = .ok (([], some e), [] ++ [Event.LookupIP []]) :=
  ⟨by decide, fun _ => ⟨_, rfl⟩,
    (safeAddr_empty_host deadWorld [] ":80".toList "80".toList (by decide) (fun _ => ⟨_, rfl⟩)).2.2⟩

/-- C18: `isBadIPv4` panics exactly on the addresses whose `To4` form is `nil`; the
condition of `safeAddr` that calls it never panics, and neither `safeAddr` nor the dial
function built by `NewDialer` panics, whatever the input, the network, the resolver and
the underlying dialer. -/
theorem safeAddr_never_panics (w : World) (dialer : Dialer) (network hostport : GoString) (tr : Trace) :
    (∀ ip, isBadIPv4 ip = .error "cannot be called for IPv6".toList ↔ To4 ip = none) ∧
    (∀ ip, ∃ b, isIPv4AndBad ip = .ok b) ∧
    (∀ ips, ∃ r, firstBadIP ips = .ok r) ∧
    (∃ r, safeAddr w hostport tr = .ok r) ∧
    (∃ r, NewDialer w dialer network hostport tr = .ok r) := by
  refine ⟨isBadIPv4_panics_iff, isIPv4AndBad_total, firstBadIP_total, ?_,
    NewDialer_total w dialer network hostport tr⟩
  obtain ⟨s, err, tr', h, -⟩ := safeAddr_total w hostport tr
  exact ⟨_, h⟩

/-- C19: the IPv4-mapped literal `::ffff:a.b.c.d` is read as the IPv4 address `a.b.c.d`; on
the input `[::ffff:a.b.c.d]:p`, `safeAddr` fails with the blocked-address error, without a
lookup, when `isBadIPv4` is true for `a.b.c.d`, and returns `a.b.c.d:p` when it is false. -/
theorem safeAddr_mapped_literal (w : World) (tr : Trace) (a b c d : Byte) (p : GoString)
    (hp : IsPort p) :
    ParseIP (mappedLiteral a b c d) = some (IPv4 a b c d) ∧ To4 (IPv4 a b c d) = some [a, b, c, d] ∧
    (isBadIPv4 [a, b, c, d] = .ok true →
      safeAddr w ('[' :: (mappedLiteral a b c d ++ ']' :: ':' :: p)) tr =
        .ok (([], some (Error.badIP (IPv4 a b c d))), tr)) ∧
    (isBadIPv4 [a, b, c, d] = .ok false →
      safeAddr w ('[' :: (mappedLiteral a b c d ++ ']' :: ':' :: p)) tr =
        .ok ((dottedDecimal a b c d ++ ':' :: p, none), tr)) := by
  have hs := SplitHostPort_mappedLiteral a b c d p hp
  have hparse := ParseIP_mappedLiteral a b c d
  have h4 := To4_IPv4 a b c d
  refine ⟨hparse, h4, fun hb => ?_, fun hb => ?_⟩
  · rw [← isBadIPv4_IPv4] at hb
    exact safeAddr_literal_bad w tr hs hparse (by simp [h4]) hb
  · rw [← isBadIPv4_IPv4] at hb
    have hv : isIPv4AndBad (IPv4 a b c d) = .ok false := by simp [isIPv4AndBad, h4, hb]
    rw [safeAddr_literal_ok w tr hs hparse hv, JoinHostPort_v4 h4]

/-- Witness of C19: the input `[::ffff:127.0.0.1]:80`. -/
theorem safeAddr_mapped_literal_witness :
    '[' :: (mappedLiteral 127 0 0 1 ++ ']' :: ':' :: "80".toList) = "[::ffff:127.0.0.1]:80".toList ∧
      safeAddr mixedWorld ('[' :: (mappedLiteral 127 0 0 1 ++ ']' :: ':' :: "80".toList)) [] =
        .ok (([], some (Error.badIP (IPv4 127 0 0 1))), []) :=
  ⟨by decide,
    (safeAddr_mapped_literal mixedWorld [] 127 0 0 1 "80".toList (by decide)).2.2.1 (by decide)⟩

/-- C20: when every address that the resolver answers has 4 or 16 bytes and `safeAddr`
returns a non-empty string `s` without error, `s` splits into a host and a port, the host
is a literal IP address, and `safeAddr` on `s` returns `s` again, without error and without
a lookup, whatever the resolver. -/
theorem safeAddr_idempotent (w : World) (hostport : GoString) (tr : Trace) (s : GoString) (tr' : Trace)
    (hwf : ∀ host, ∀ ip ∈ (w.LookupIP tr host).1, ip.length = 4 ∨ ip.length = 16)
    (h : safeAddr w hostport tr = .ok ((s, none), tr')) (hne : s ≠ []) :
    (∃ host port ip, SplitHostPort s = (host, port, none) ∧ ParseIP host = some ip) ∧
      ∀ (w2 : World) (tr2 : Trace), safeAddr w2 s tr2 = .ok ((s, none), tr2) := by
  rcases safeAddr_ok_source h with rfl | ⟨ip0, port0, hport, hv, rfl, hsrc⟩
  · exact absurd rfl hne
  · have hlen : ip0.length = 4 ∨ ip0.length = 16 := by
      rcases hsrc with h16 | ⟨host, hmem⟩
      · exact Or.inr h16
      · exact hwf host ip0 hmem
    obtain ⟨⟨ip, hs, hp⟩, -⟩ := safeAddr_fixpoint hlen hport hv w tr
    exact ⟨⟨_, _, ip, hs, hp⟩, fun w2 tr2 => (safeAddr_fixpoint hlen hport hv w2 tr2).2⟩

/-- Witness of C20: `example.org:80`, resolved to `93.184.216.34`, gives `93.184.216.34:80`,
on which `safeAddr` returns `93.184.216.34:80` even with a resolver that fails. -/
theorem safeAddr_idempotent_witness :
    safeAddr rebindingWorld "example.org:80".toList [] =
        .ok (("93.184.216.34:80".toList, none), [Event.LookupIP "example.org".toList]) ∧
      safeAddr deadWorld "93.184.216.34:80".toList [] = .ok (("93.184.216.34:80".toList, none), []) :=
  ⟨by decide,
    (safeAddr_idempotent rebindingWorld "example.org:80".toList [] "93.184.216.34:80".toList
      [Event.LookupIP "example.org".toList]
      (fun _ ip hip => by
        simp only [rebindingWorld, if_true, List.mem_singleton] at hip
        subst hip
        decide)
      (by decide) (by decide)).2 deadWorld []⟩

end Paranoidhttp
